import Mathlib

set_option maxRecDepth 20000

/-!
A shallow embedding of the address/merge core of the IPMerge repository
(files src/address.py and src/ipmerge.py), with theorems checking the
natural-language specification's claims against it.

Conventions used throughout:
* Python's arbitrary-precision integers are modelled as Nat where the source
  only ever holds nonnegative values, and as Int where a negative value can
  occur (prefix lengths before validation, parsed octet values).
* Python exceptions are modelled with Except PyErr; parser functions that
  return None on bad input are modelled with Option.
* Python strings are modelled as List Char; a final String is produced only
  when a rendering function returns.
* The one piece of mutable state in the core, the IPv6 dual flag written by
  setDualAfterMerge, is modelled by explicit state passing: IP_Block.merge
  returns the merge result together with the post-call state of its two
  argument blocks.
-/

/-- The error kinds the source can raise: InvalidPrefixException,
InvalidNetworkAddressException and UnrecognizedAddressException from
exceptions.py, plus Python's built-in IndexError (out-of-range list index)
and ValueError. -/
inductive PyErr where
  | invalidPrefix
  | invalidNetworkAddress
  | unrecognizedAddress
  | indexError
  | valueError
deriving DecidableEq, Repr

deriving instance DecidableEq for Except

/-- Python's `x & ~m` on nonnegative arbitrary-precision ints.  In two's
complement, bit i of `x & ~m` is `x_i AND (NOT m_i)`, which equals
`x_i XOR (x_i AND m_i)`; for nonnegative `x` the result is nonnegative, so it
is a Nat.  Used for the source expressions
`address.addressInt & (~mask)` (src/address.py line 390) and
`lower.address.addressInt & ~(lower._mask << 1)` (src/address.py line 461). -/
def pyAndNot (x m : Nat) : Nat := x ^^^ (x &&& m)

/-- The loop of `generateMasks` (src/address.py lines 20-21, same code in
src/ipmerge.py lines 94-95): `count` iterations remain, `i` is the loop
variable, `prev` is `masks[i - 1]`; each step appends
`masks[i - 1] | (1 << (maxPrefix - i))`. -/
def genMasksAux (maxPrefix : Nat) : Nat → Nat → Nat → List Nat
  | 0, _, _ => []
  | count + 1, i, prev =>
    let next := prev ||| (1 <<< (maxPrefix - i))
    next :: genMasksAux maxPrefix count (i + 1) next

/-- Source `generateMasks(maxPrefix)` (src/address.py lines 14-23): starts
from `[0]` and runs the loop for `i = 1 .. maxPrefix`.  The source guards the
initial append with `maxPrefix >= 0`, which always holds here because every
caller passes an address bit length (a Nat). -/
def generateMasks (maxPrefix : Nat) : List Nat :=
  0 :: genMasksAux maxPrefix maxPrefix 1 0

/-- Source `prefixToMask(maxPrefix, prefix)` (src/address.py lines 25-38).
The `_masksForPrefixes` cache is semantically transparent (it stores exactly
`generateMasks maxPrefix` keyed by `maxPrefix`), so the model recomputes.
Note the guard is `prefix > len(masks)` with `len(masks) = maxPrefix + 1`,
exactly as in the source; indexing `masks[prefix]` out of range is Python's
IndexError. -/
def prefixToMask (maxPrefix : Nat) (p : Int) : Except PyErr Nat :=
  if p < 0 then .error .invalidPrefix
  else
    let masks := generateMasks maxPrefix
    if p > (masks.length : Int) then .error .invalidPrefix
    else
      match masks[p.toNat]? with
      | some m => .ok m
      | none => .error .indexError

/-- The closed form of the mask for `p` leading network bits out of `w`:
the top `p` bits of a `w`-bit word. -/
def maskVal (w p : Nat) : Nat := (2 ^ p - 1) <<< (w - p)

theorem pyAndNot_testBit (x m i : Nat) :
    (pyAndNot x m).testBit i = (x.testBit i && !(m.testBit i)) := by
  simp only [pyAndNot, Nat.testBit_xor, Nat.testBit_land]
  cases x.testBit i <;> cases m.testBit i <;> rfl

theorem pyAndNot_eq_zero_iff (x m : Nat) :
    pyAndNot x m = 0 ↔ ∀ i, x.testBit i = true → m.testBit i = true := by
  constructor
  · intro h i hx
    have := congrArg (fun t => t.testBit i) h
    simp only [pyAndNot_testBit, Nat.zero_testBit, hx, Bool.true_and,
      Bool.not_eq_false'] at this
    exact this
  · intro h
    apply Nat.eq_of_testBit_eq
    intro i
    simp only [pyAndNot_testBit, Nat.zero_testBit]
    cases hx : x.testBit i
    · rfl
    · simp [h i hx]

theorem maskVal_testBit {w p : Nat} (hp : p ≤ w) (i : Nat) :
    (maskVal w p).testBit i = true ↔ (w - p ≤ i ∧ i < w) := by
  simp only [maskVal, Nat.testBit_shiftLeft, Nat.testBit_two_pow_sub_one,
    Bool.and_eq_true, decide_eq_true_eq, ge_iff_le]
  omega

theorem maskVal_zero (w : Nat) : maskVal w 0 = 0 := by
  simp [maskVal]

theorem pyAndNot_zero (x : Nat) : pyAndNot x 0 = x := by
  simp [pyAndNot]

/-- One loop step of mask generation: adding bit `w - i` to the mask of
`i - 1` leading bits gives the mask of `i` leading bits. -/
theorem maskVal_step {w i : Nat} (h1 : 1 ≤ i) (h2 : i ≤ w) :
    maskVal w (i - 1) ||| (1 <<< (w - i)) = maskVal w i := by
  apply Nat.eq_of_testBit_eq
  intro j
  rw [Bool.eq_iff_iff, Nat.one_shiftLeft]
  simp only [Nat.testBit_lor, Bool.or_eq_true, maskVal, Nat.testBit_shiftLeft,
    Nat.testBit_two_pow_sub_one, Nat.testBit_two_pow, Bool.and_eq_true,
    decide_eq_true_eq, ge_iff_le]
  omega

theorem genMasksAux_get (w : Nat) :
    ∀ (count i : Nat), 1 ≤ i → i + count ≤ w + 1 →
      ∀ j, j < count →
        (genMasksAux w count i (maskVal w (i - 1)))[j]? = some (maskVal w (i + j))
  | 0, _, _, _, j, hj => absurd hj (Nat.not_lt_zero j)
  | count + 1, i, h1, h2, j, hj => by
    simp only [genMasksAux]
    rw [maskVal_step h1 (by omega)]
    match j with
    | 0 => simp
    | j' + 1 =>
      have hi : i + 1 - 1 = i := by omega
      have ih := genMasksAux_get w count (i + 1) (by omega) (by omega) j' (by omega)
      rw [hi] at ih
      rw [List.getElem?_cons_succ, ih, show i + 1 + j' = i + (j' + 1) from by omega]

theorem genMasksAux_length (w : Nat) :
    ∀ (count i prev : Nat), (genMasksAux w count i prev).length = count
  | 0, _, _ => rfl
  | count + 1, i, prev => by
    unfold genMasksAux
    simp [genMasksAux_length w count]

theorem generateMasks_length (w : Nat) : (generateMasks w).length = w + 1 := by
  simp [generateMasks, genMasksAux_length]

theorem generateMasks_get (w : Nat) :
    ∀ p, p ≤ w → (generateMasks w)[p]? = some (maskVal w p) := by
  intro p hp
  match p with
  | 0 => simp [generateMasks, maskVal_zero]
  | p' + 1 =>
    show (0 :: genMasksAux w w 1 0)[p' + 1]? = some (maskVal w (p' + 1))
    have ih := genMasksAux_get w w 1 (le_refl 1) (by omega) p' (by omega)
    rw [show maskVal w (1 - 1) = 0 from by simp [maskVal_zero]] at ih
    rw [List.getElem?_cons_succ, ih, show 1 + p' = p' + 1 from by omega]

/-- For an in-range prefix, prefixToMask returns exactly the top-bit mask. -/
theorem prefixToMask_ok {w : Nat} (p : Nat) (hp : p ≤ w) :
    prefixToMask w (p : Int) = .ok (maskVal w p) := by
  unfold prefixToMask
  rw [if_neg (by omega), if_neg (by rw [generateMasks_length]; push_cast; omega)]
  rw [show ((p : Int)).toNat = p from rfl, generateMasks_get w p hp]

/-- Inversion: a successful prefixToMask means the prefix was in range and
the mask is the top-bit mask. -/
theorem prefixToMask_inv {w : Nat} {p : Int} {m : Nat}
    (h : prefixToMask w p = .ok m) :
    0 ≤ p ∧ p.toNat ≤ w ∧ m = maskVal w p.toNat := by
  unfold prefixToMask at h
  by_cases h0 : p < 0
  · rw [if_pos h0] at h; cases h
  · rw [if_neg h0] at h
    by_cases h1 : p > ((generateMasks w).length : Int)
    · rw [if_pos h1] at h; cases h
    · rw [if_neg h1] at h
      rw [generateMasks_length] at h1
      by_cases h2 : p.toNat ≤ w
      · rw [generateMasks_get w p.toNat h2] at h
        cases h
        exact ⟨by omega, h2, rfl⟩
      · exfalso
        have hw : p.toNat = w + 1 := by omega
        have : (generateMasks w)[p.toNat]? = none := by
          apply List.getElem?_eq_none
          rw [generateMasks_length]; omega
        rw [this] at h
        cases h

/-- An address value: an IPv4_Address holds its 32-bit integer; an
IPv6_Address holds its ordered 16-bit segment list (class IPv6Segments,
src/address.py lines 136-210) and its dual flag.  Python's runtime-class
comparisons `type(a) == type(b)` become constructor comparisons. -/
inductive Address where
  | v4 (addressInt : Nat)
  | v6 (segments : List Nat) (dual : Bool)
deriving DecidableEq, Repr

namespace Address

/-- IPv6Segments.__int__ (src/address.py lines 173-177): fold the 16-bit
segments big-endian, `result = (result << 16) | x`. -/
def segmentsInt (segs : List Nat) : Nat :=
  segs.foldl (fun result x => (result <<< 16) ||| x) 0

/-- The addressInt property: the stored int for IPv4; for IPv6 the stored int
is `int(segments)` however the address was built (IPv6_Address.__init__,
src/address.py lines 216-224, sets `addressInt = int(address)` when given
segments and `segments = IPv6Segments(address)` when given an int, and
converting 8 in-range segments to an int and back is the identity). -/
def addressInt : Address → Nat
  | .v4 n => n
  | .v6 segs _ => segmentsInt segs

/-- The addressLength property: 32 for IPv4 (src/address.py line 121),
128 for IPv6 (line 374). -/
def addressLength : Address → Nat
  | .v4 _ => 32
  | .v6 _ _ => 128

/-- Models `type(x) == IPv6_Address`. -/
def isV6 : Address → Bool
  | .v4 _ => false
  | .v6 _ _ => true

/-- Models `type(a) == type(b)`. -/
def sameType : Address → Address → Bool
  | .v4 _, .v4 _ => true
  | .v6 _ _, .v6 _ _ => true
  | _, _ => false

/-- Address.__eq__ (src/address.py lines 55-59): equal exactly when the
runtime classes match and the integer values match (the IPv6 dual flag is
not compared). -/
def beq (a b : Address) : Bool :=
  sameType a b && (addressInt a == addressInt b)

/-- The IPv6 dual flag (False for an IPv4 value, which has none). -/
def dualFlag : Address → Bool
  | .v4 _ => false
  | .v6 _ d => d

/-- IPv6_Address.setDualAfterMerge (src/address.py lines 368-370), called on
`self`: when both arguments are IPv6_Address values, self's dual flag becomes
`address1.dual and address2.dual`; otherwise nothing changes.  The source
mutates self in place; the model returns the updated value. -/
def setDualAfterMerge (self a1 a2 : Address) : Address :=
  match a1, a2 with
  | .v6 _ d1, .v6 _ d2 =>
    match self with
    | .v6 segs _ => .v6 segs (d1 && d2)
    | .v4 n => .v4 n
  | _, _ => self

/-- The statement pattern the source's merge uses before building a result
block (for example src/address.py lines 450-451):
`if type(x.address) == IPv6_Address: x.address.setDualAfterMerge(a1, a2)`,
after which `x.address` is the value this function returns. -/
def dualAdj (self a1 a2 : Address) : Address :=
  if isV6 self then setDualAfterMerge self a1 a2 else self

end Address

/-- IP_Block (src/address.py lines 382-399): an address, a prefix length
(field `prefix` in the source, named `plen` here) and the mask computed at
construction time. -/
structure IP_Block where
  address : Address
  plen : Int
  mask : Nat
deriving DecidableEq, Repr

namespace IP_Block

/-- IP_Block.__init__ (src/address.py lines 385-391): compute the mask with
prefixToMask (which can itself fail) and fail with InvalidNetworkAddress when
the base address has a nonzero bit outside the mask
(`addressInt & ~mask != 0`). -/
def make (address : Address) (p : Int) : Except PyErr IP_Block :=
  match prefixToMask (Address.addressLength address) p with
  | .error e => .error e
  | .ok mask =>
    if pyAndNot (Address.addressInt address) mask ≠ 0 then
      .error .invalidNetworkAddress
    else
      .ok ⟨address, p, mask⟩

/-- A block as __init__ actually produces it. -/
def Wf (b : IP_Block) : Prop := make b.address b.plen = .ok b

instance (b : IP_Block) : Decidable b.Wf :=
  inferInstanceAs (Decidable (make b.address b.plen = .ok b))

/-- The firstAddress property (src/address.py lines 401-403). -/
def firstAddress (b : IP_Block) : Nat := Address.addressInt b.address

/-- The lastAddress property (src/address.py lines 405-407):
`addressInt | ((1 << (addressLength - prefix)) - 1)`.  The exponent is the
Python int `addressLength - prefix`; every constructed block has
`0 <= prefix <= addressLength` (make fails otherwise), so the Nat
subtraction `addressLength - plen.toNat` is that same value. -/
def lastAddress (b : IP_Block) : Nat :=
  Address.addressInt b.address |||
    ((1 <<< (Address.addressLength b.address - b.plen.toNat)) - 1)

/-- IP_Block.merge (src/address.py lines 444-476), translated branch by
branch.  The source's first guard compares `type(block1.address)` with
itself (line 446: `type(block1.address) != type(block1.address)`), so it can
never fire; it is kept verbatim.  setDualAfterMerge mutates the address
object of one input block in place and the result block then shares that
object, so the model returns `(result, block1 after the call, block2 after
the call)`. -/
def merge (block1 block2 : IP_Block) :
    Except PyErr (Option IP_Block × IP_Block × IP_Block) :=
  if Address.sameType block1.address block1.address = false then
    .ok (none, block1, block2)
  else if block1.mask = block2.mask then
    if Address.beq block1.address block2.address then
      match make (Address.dualAdj block1.address block1.address block2.address)
          block1.plen with
      | .error e => .error e
      | .ok m => .ok (some m,
          { block1 with
            address := Address.dualAdj block1.address block1.address block2.address },
          block2)
    else if (lastAddress block1 : Int) = (firstAddress block2 : Int) - 1 then
      if pyAndNot (Address.addressInt block1.address) (block1.mask <<< 1) = 0 then
        match make (Address.dualAdj block1.address block1.address block2.address)
            (block1.plen - 1) with
        | .error e => .error e
        | .ok m => .ok (some m,
            { block1 with
              address := Address.dualAdj block1.address block1.address block2.address },
            block2)
      else .ok (none, block1, block2)
    else if (lastAddress block2 : Int) = (firstAddress block1 : Int) - 1 then
      if pyAndNot (Address.addressInt block2.address) (block2.mask <<< 1) = 0 then
        match make (Address.dualAdj block2.address block1.address block2.address)
            (block2.plen - 1) with
        | .error e => .error e
        | .ok m => .ok (some m, block1,
            { block2 with
              address := Address.dualAdj block2.address block1.address block2.address })
      else .ok (none, block1, block2)
    else .ok (none, block1, block2)
  else if firstAddress block2 ≤ firstAddress block1 ∧
      lastAddress block1 ≤ lastAddress block2 then
    match make (Address.dualAdj block2.address block1.address block2.address)
        block2.plen with
    | .error e => .error e
    | .ok m => .ok (some m, block1,
        { block2 with
          address := Address.dualAdj block2.address block1.address block2.address })
  else if firstAddress block1 ≤ firstAddress block2 ∧
      lastAddress block2 ≤ lastAddress block1 then
    match make (Address.dualAdj block1.address block1.address block2.address)
        block1.plen with
    | .error e => .error e
    | .ok m => .ok (some m,
        { block1 with
          address := Address.dualAdj block1.address block1.address block2.address },
        block2)
  else .ok (none, block1, block2)

/-- Only the merge result, without the post-call state of the inputs. -/
def mergeResult (b1 b2 : IP_Block) : Except PyErr (Option IP_Block) :=
  Except.map (fun r => r.1) (merge b1 b2)

end IP_Block

theorem sameType_self (a : Address) : Address.sameType a a = true := by
  cases a <;> rfl

theorem addressInt_setDual (s a1 a2 : Address) :
    Address.addressInt (Address.setDualAfterMerge s a1 a2) = Address.addressInt s := by
  cases a1 <;> cases a2 <;> cases s <;> rfl

theorem addressLength_setDual (s a1 a2 : Address) :
    Address.addressLength (Address.setDualAfterMerge s a1 a2) = Address.addressLength s := by
  cases a1 <;> cases a2 <;> cases s <;> rfl

theorem sameType_setDual (s a1 a2 t : Address) :
    Address.sameType (Address.setDualAfterMerge s a1 a2) t = Address.sameType s t := by
  cases a1 <;> cases a2 <;> cases s <;> cases t <;> rfl

theorem beq_true_iff (a b : Address) :
    Address.beq a b = true ↔
      (Address.sameType a b = true ∧ Address.addressInt a = Address.addressInt b) := by
  simp [Address.beq, Bool.and_eq_true]

/-- Successful construction, spelled out. -/
theorem make_ok {a : Address} {p : Nat} (h1 : p ≤ Address.addressLength a)
    (h3 : pyAndNot (Address.addressInt a) (maskVal (Address.addressLength a) p) = 0) :
    IP_Block.make a (p : Int) =
      .ok ⟨a, (p : Int), maskVal (Address.addressLength a) p⟩ := by
  unfold IP_Block.make
  rw [prefixToMask_ok p h1]
  show (if pyAndNot (Address.addressInt a) (maskVal (Address.addressLength a) p) ≠ 0 then
      (.error .invalidNetworkAddress : Except PyErr IP_Block)
    else .ok ⟨a, (p : Int), maskVal (Address.addressLength a) p⟩) = _
  rw [if_neg (by simpa using h3)]

theorem wf_iff (b : IP_Block) :
    b.Wf ↔ (0 ≤ b.plen ∧ b.plen.toNat ≤ Address.addressLength b.address ∧
      b.mask = maskVal (Address.addressLength b.address) b.plen.toNat ∧
      pyAndNot (Address.addressInt b.address) b.mask = 0) := by
  constructor
  · intro h
    unfold IP_Block.Wf IP_Block.make at h
    cases hpm : prefixToMask (Address.addressLength b.address) b.plen with
    | error e => rw [hpm] at h; cases h
    | ok mask =>
      rw [hpm] at h
      replace h : (if pyAndNot (Address.addressInt b.address) mask ≠ 0 then
          (.error .invalidNetworkAddress : Except PyErr IP_Block)
        else .ok ⟨b.address, b.plen, mask⟩) = .ok b := h
      obtain ⟨h0, h1, h2⟩ := prefixToMask_inv hpm
      by_cases ht : pyAndNot (Address.addressInt b.address) mask ≠ 0
      · rw [if_pos ht] at h; cases h
      · rw [if_neg ht] at h
        have hb := Except.ok.inj h
        have hmsk : mask = b.mask := congrArg IP_Block.mask hb
        refine ⟨h0, h1, ?_, ?_⟩
        · rw [← hmsk]; exact h2
        · rw [← hmsk]; simpa using ht
  · rintro ⟨h0, h1, h2, h3⟩
    have hcast : ((b.plen.toNat : Nat) : Int) = b.plen := Int.toNat_of_nonneg h0
    have hmk := make_ok (a := b.address) (p := b.plen.toNat) h1 (by rw [← h2]; exact h3)
    unfold IP_Block.Wf
    rw [← hcast, hmk, ← h2, hcast]

theorem addressLength_eq_of_sameType {a b : Address}
    (h : Address.sameType a b = true) :
    Address.addressLength a = Address.addressLength b := by
  cases a <;> cases b <;> first | rfl | simp [Address.sameType] at h

theorem maskVal_inj {w p q : Nat} (hp : p ≤ w) (hq : q ≤ w)
    (h : maskVal w p = maskVal w q) : p = q := by
  by_contra hne
  rcases Nat.lt_or_ge p q with hlt | hge
  · have h1 : (maskVal w q).testBit (w - q) = true :=
      (maskVal_testBit hq _).mpr (by omega)
    have h2 : ¬ (maskVal w p).testBit (w - q) = true := by
      intro hc
      have := (maskVal_testBit hp _).mp hc
      omega
    rw [h] at h2
    exact h2 h1
  · have hlt : q < p := by omega
    have h1 : (maskVal w p).testBit (w - p) = true :=
      (maskVal_testBit hp _).mpr (by omega)
    have h2 : ¬ (maskVal w q).testBit (w - p) = true := by
      intro hc
      have := (maskVal_testBit hq _).mp hc
      omega
    rw [← h] at h2
    exact h2 h1

/-- A value whose bits lie inside the prefix-p mask and inside that mask
shifted left by one has its bits inside the prefix-(p-1) mask: the bit test
of the adjacency merge really checks alignment to the coarser prefix. -/
theorem parent_mask_test {w pn x : Nat} (hp1 : 1 ≤ pn) (hpw : pn ≤ w)
    (hv : pyAndNot x (maskVal w pn) = 0)
    (ht : pyAndNot x (maskVal w pn <<< 1) = 0) :
    pyAndNot x (maskVal w (pn - 1)) = 0 := by
  rw [pyAndNot_eq_zero_iff] at hv ht ⊢
  intro i hx
  have h1 := (maskVal_testBit hpw i).mp (hv i hx)
  have h2 := ht i hx
  rw [Nat.testBit_shiftLeft, Bool.and_eq_true, decide_eq_true_eq] at h2
  obtain ⟨hi1, hi2⟩ := h2
  have h3 := (maskVal_testBit hpw (i - 1)).mp hi2
  exact (maskVal_testBit (by omega) i).mpr (by omega)

/-- Two well-formed blocks of one family with the same prefix length have
the same mask. -/
theorem mask_eq_of_same_plen {b1 b2 : IP_Block} (hw1 : b1.Wf) (hw2 : b2.Wf)
    (hfam : Address.sameType b1.address b2.address = true)
    (hpl : b1.plen = b2.plen) : b1.mask = b2.mask := by
  obtain ⟨_, _, hm1, _⟩ := (wf_iff b1).mp hw1
  obtain ⟨_, _, hm2, _⟩ := (wf_iff b2).mp hw2
  rw [hm1, hm2, hpl, addressLength_eq_of_sameType hfam]

/-- Two well-formed blocks of one family with different prefix lengths have
different masks. -/
theorem mask_ne_of_ne_plen {b1 b2 : IP_Block} (hw1 : b1.Wf) (hw2 : b2.Wf)
    (hfam : Address.sameType b1.address b2.address = true)
    (hpl : b1.plen ≠ b2.plen) : b1.mask ≠ b2.mask := by
  obtain ⟨hz1, hr1, hm1, _⟩ := (wf_iff b1).mp hw1
  obtain ⟨hz2, hr2, hm2, _⟩ := (wf_iff b2).mp hw2
  rw [hm1, hm2, addressLength_eq_of_sameType hfam]
  intro hc
  have := maskVal_inj (by rw [← addressLength_eq_of_sameType hfam]; exact hr1) hr2 hc
  omega

/-- A well-formed block with prefix length 0 has base address 0, so two
well-formed same-family blocks with equal masks and different base addresses
have prefix length at least one. -/
theorem plen_pos_of_base_ne {b1 b2 : IP_Block} (hw1 : b1.Wf) (hw2 : b2.Wf)
    (hfam : Address.sameType b1.address b2.address = true)
    (hmask : b1.mask = b2.mask)
    (hne : Address.addressInt b1.address ≠ Address.addressInt b2.address) :
    1 ≤ b1.plen.toNat := by
  obtain ⟨hz1, hr1, hm1, hv1⟩ := (wf_iff b1).mp hw1
  obtain ⟨hz2, hr2, hm2, hv2⟩ := (wf_iff b2).mp hw2
  by_contra hc
  have hp0 : b1.plen.toNat = 0 := by omega
  rw [hp0, maskVal_zero] at hm1
  have hx1 : Address.addressInt b1.address = 0 := by
    have := hv1
    rw [hm1, pyAndNot_zero] at this
    exact this
  have hlen := addressLength_eq_of_sameType hfam
  have hp20 : b2.plen.toNat = 0 := by
    have h0 : maskVal (Address.addressLength b2.address) b2.plen.toNat =
        maskVal (Address.addressLength b2.address) 0 := by
      rw [maskVal_zero, ← hm2, ← hmask, hm1]
    exact maskVal_inj hr2 (by omega) h0
  have hx2 : Address.addressInt b2.address = 0 := by
    have := hv2
    rw [hm2, hp20, maskVal_zero, pyAndNot_zero] at this
    exact this
  exact hne (by rw [hx1, hx2])

theorem isV6_setDual (s a1 a2 : Address) :
    Address.isV6 (Address.setDualAfterMerge s a1 a2) = Address.isV6 s := by
  cases a1 <;> cases a2 <;> cases s <;> rfl

/-- The address a merge branch puts into its result block keeps the integer
value and bit length of the original; only the dual flag can change. -/
theorem dualAdj_int (a x y : Address) :
    Address.addressInt (Address.dualAdj a x y) = Address.addressInt a := by
  unfold Address.dualAdj
  by_cases hv : Address.isV6 a
  · simp [hv, addressInt_setDual]
  · simp [hv]

theorem dualAdj_len (a x y : Address) :
    Address.addressLength (Address.dualAdj a x y) = Address.addressLength a := by
  unfold Address.dualAdj
  by_cases hv : Address.isV6 a
  · simp [hv, addressLength_setDual]
  · simp [hv]

theorem sameType_dualAdj (a x y t : Address) :
    Address.sameType (Address.dualAdj a x y) t = Address.sameType a t := by
  unfold Address.dualAdj
  by_cases hv : Address.isV6 a
  · simp [hv, sameType_setDual]
  · simp [hv]

theorem sameType_symm {a b : Address} (h : Address.sameType a b = true) :
    Address.sameType b a = true := by
  cases a <;> cases b <;> first | rfl | simp [Address.sameType] at h

/-- The lower-addressed block of a bit-adjacent pair, as the source's merge
selects it: block1 when block1's range sits just below block2's, block2
otherwise. -/
def lowerOf (b1 b2 : IP_Block) : IP_Block :=
  if IP_Block.lastAddress b1 + 1 = IP_Block.firstAddress b2 then b1 else b2

theorem make_dualAdj_keep {a x y : Address} {pn : Nat}
    (hpw : pn ≤ Address.addressLength a)
    (hv : pyAndNot (Address.addressInt a) (maskVal (Address.addressLength a) pn) = 0) :
    IP_Block.make (Address.dualAdj a x y) (pn : Int) =
      .ok ⟨Address.dualAdj a x y, (pn : Int), maskVal (Address.addressLength a) pn⟩ := by
  have h1 : pn ≤ Address.addressLength (Address.dualAdj a x y) := by
    rw [dualAdj_len]; exact hpw
  have h3 : pyAndNot (Address.addressInt (Address.dualAdj a x y))
      (maskVal (Address.addressLength (Address.dualAdj a x y)) pn) = 0 := by
    rw [dualAdj_int, dualAdj_len]; exact hv
  rw [make_ok h1 h3]
  simp [dualAdj_len]

theorem make_dualAdj_parent {a x y : Address} {pn : Nat}
    (hp1 : 1 ≤ pn) (hpw : pn ≤ Address.addressLength a)
    (hv : pyAndNot (Address.addressInt a) (maskVal (Address.addressLength a) pn) = 0)
    (ht : pyAndNot (Address.addressInt a) (maskVal (Address.addressLength a) pn <<< 1) = 0) :
    IP_Block.make (Address.dualAdj a x y) ((pn : Int) - 1) =
      .ok ⟨Address.dualAdj a x y, (pn : Int) - 1,
        maskVal (Address.addressLength a) (pn - 1)⟩ := by
  have hcast : ((pn : Int) - 1) = ((pn - 1 : Nat) : Int) := by omega
  rw [hcast]
  have h1 : pn - 1 ≤ Address.addressLength (Address.dualAdj a x y) := by
    rw [dualAdj_len]; omega
  have h3 : pyAndNot (Address.addressInt (Address.dualAdj a x y))
      (maskVal (Address.addressLength (Address.dualAdj a x y)) (pn - 1)) = 0 := by
    rw [dualAdj_int, dualAdj_len]
    exact parent_mask_test hp1 hpw hv ht
  rw [make_ok h1 h3]
  simp [dualAdj_len]

/-- C1: for same-family blocks with equal prefix lengths and different base
addresses, merge returns the immediate parent NetworkBlock(lower.address,
plen - 1) exactly when the ranges are bit-adjacent and the lower block's base
passes the alignment test `lower.intValue & ~(mask << 1) == 0`; otherwise no
result.  In particular [10.0.0.0/25, 10.0.0.128/25] merges to 10.0.0.0/24 and
[10.0.0.0/24, 10.0.2.0/24] does not merge. -/
theorem merge_same_plen_parent_iff :
    (∀ b1 b2 : IP_Block, b1.Wf → b2.Wf →
      Address.sameType b1.address b2.address = true →
      b1.plen = b2.plen →
      Address.addressInt b1.address ≠ Address.addressInt b2.address →
      (((IP_Block.lastAddress b1 + 1 = IP_Block.firstAddress b2 ∨
          IP_Block.lastAddress b2 + 1 = IP_Block.firstAddress b1) ∧
         pyAndNot (IP_Block.firstAddress (lowerOf b1 b2))
           ((lowerOf b1 b2).mask <<< 1) = 0 →
        ∃ m, IP_Block.mergeResult b1 b2 = .ok (some m) ∧
          m.plen = b1.plen - 1 ∧
          IP_Block.firstAddress m = IP_Block.firstAddress (lowerOf b1 b2) ∧
          Address.sameType m.address b1.address = true) ∧
       (¬ ((IP_Block.lastAddress b1 + 1 = IP_Block.firstAddress b2 ∨
          IP_Block.lastAddress b2 + 1 = IP_Block.firstAddress b1) ∧
         pyAndNot (IP_Block.firstAddress (lowerOf b1 b2))
           ((lowerOf b1 b2).mask <<< 1) = 0) →
        IP_Block.mergeResult b1 b2 = .ok none))) ∧
    IP_Block.mergeResult ⟨Address.v4 0x0A000000, 25, 0xFFFFFF80⟩
        ⟨Address.v4 0x0A000080, 25, 0xFFFFFF80⟩ =
      .ok (some ⟨Address.v4 0x0A000000, 24, 0xFFFFFF00⟩) ∧
    IP_Block.mergeResult ⟨Address.v4 0x0A000000, 24, 0xFFFFFF00⟩
        ⟨Address.v4 0x0A000200, 24, 0xFFFFFF00⟩ = .ok none := by
  refine ⟨?_, by decide, by decide⟩
  intro b1 b2 hw1 hw2 hfam hpl hne
  have hmask := mask_eq_of_same_plen hw1 hw2 hfam hpl
  have hbeq : Address.beq b1.address b2.address = false := by
    rw [Bool.eq_false_iff]
    intro hc
    exact hne ((beq_true_iff _ _).mp hc).2
  obtain ⟨hz1, hr1, hm1, hv1⟩ := (wf_iff b1).mp hw1
  obtain ⟨hz2, hr2, hm2, hv2⟩ := (wf_iff b2).mp hw2
  have hppos := plen_pos_of_base_ne hw1 hw2 hfam hmask hne
  constructor
  · rintro ⟨hadj, htest⟩
    by_cases hc1 : IP_Block.lastAddress b1 + 1 = IP_Block.firstAddress b2
    · have hlow : lowerOf b1 b2 = b1 := if_pos hc1
      have hc1i : (IP_Block.lastAddress b1 : Int) =
          (IP_Block.firstAddress b2 : Int) - 1 := by omega
      have htest' : pyAndNot (Address.addressInt b1.address) (b1.mask <<< 1) = 0 := by
        rw [hlow] at htest
        exact htest
      have hmk := make_dualAdj_parent (a := b1.address) (x := b1.address)
        (y := b2.address) hppos hr1 (by rw [← hm1]; exact hv1)
        (by rw [← hm1]; exact htest')
      have hplc : b1.plen - 1 = ((b1.plen.toNat : Int)) - 1 := by omega
      unfold IP_Block.mergeResult IP_Block.merge
      rw [sameType_self, if_neg (by simp), if_pos hmask, hbeq, if_neg (by simp),
        if_pos hc1i, if_pos htest', hplc, hmk]
      refine ⟨_, rfl, rfl, ?_, ?_⟩
      · rw [hlow]
        show Address.addressInt (Address.dualAdj b1.address b1.address b2.address) =
          Address.addressInt b1.address
        exact dualAdj_int _ _ _
      · show Address.sameType
          (Address.dualAdj b1.address b1.address b2.address) b1.address = true
        rw [sameType_dualAdj]
        exact sameType_self _
    · have hc2 : IP_Block.lastAddress b2 + 1 = IP_Block.firstAddress b1 :=
        hadj.resolve_left hc1
      have hlow : lowerOf b1 b2 = b2 := if_neg hc1
      have hc2i : (IP_Block.lastAddress b2 : Int) =
          (IP_Block.firstAddress b1 : Int) - 1 := by omega
      have htest' : pyAndNot (Address.addressInt b2.address) (b2.mask <<< 1) = 0 := by
        rw [hlow] at htest
        exact htest
      have hppos2 : 1 ≤ b2.plen.toNat := by omega
      have hmk := make_dualAdj_parent (a := b2.address) (x := b1.address)
        (y := b2.address) hppos2 hr2 (by rw [← hm2]; exact hv2)
        (by rw [← hm2]; exact htest')
      have hplc : b2.plen - 1 = ((b2.plen.toNat : Int)) - 1 := by omega
      unfold IP_Block.mergeResult IP_Block.merge
      rw [sameType_self, if_neg (by simp), if_pos hmask, hbeq, if_neg (by simp),
        if_neg (by omega), if_pos hc2i, if_pos htest', hplc, hmk]
      refine ⟨_, rfl, by show ((b2.plen.toNat : Int)) - 1 = b1.plen - 1; omega, ?_, ?_⟩
      · rw [hlow]
        show Address.addressInt (Address.dualAdj b2.address b1.address b2.address) =
          Address.addressInt b2.address
        exact dualAdj_int _ _ _
      · show Address.sameType
          (Address.dualAdj b2.address b1.address b2.address) b1.address = true
        rw [sameType_dualAdj]
        exact sameType_symm hfam
  · intro hnot
    by_cases hc1 : IP_Block.lastAddress b1 + 1 = IP_Block.firstAddress b2
    · have hlow : lowerOf b1 b2 = b1 := if_pos hc1
      have hc1i : (IP_Block.lastAddress b1 : Int) =
          (IP_Block.firstAddress b2 : Int) - 1 := by omega
      have htno : ¬ pyAndNot (Address.addressInt b1.address) (b1.mask <<< 1) = 0 := by
        intro hc
        exact hnot ⟨Or.inl hc1, by rw [hlow]; exact hc⟩
      unfold IP_Block.mergeResult IP_Block.merge
      rw [sameType_self, if_neg (by simp), if_pos hmask, hbeq, if_neg (by simp),
        if_pos hc1i, if_neg htno]
      rfl
    · by_cases hc2 : IP_Block.lastAddress b2 + 1 = IP_Block.firstAddress b1
      · have hlow : lowerOf b1 b2 = b2 := if_neg hc1
        have hc2i : (IP_Block.lastAddress b2 : Int) =
            (IP_Block.firstAddress b1 : Int) - 1 := by omega
        have htno : ¬ pyAndNot (Address.addressInt b2.address) (b2.mask <<< 1) = 0 := by
          intro hc
          exact hnot ⟨Or.inr hc2, by rw [hlow]; exact hc⟩
        unfold IP_Block.mergeResult IP_Block.merge
        rw [sameType_self, if_neg (by simp), if_pos hmask, hbeq, if_neg (by simp),
          if_neg (by omega), if_pos hc2i, if_neg htno]
        rfl
      · unfold IP_Block.mergeResult IP_Block.merge
        rw [sameType_self, if_neg (by simp), if_pos hmask, hbeq, if_neg (by simp),
          if_neg (by omega), if_neg (by omega)]
        rfl

/-- C2: for same-family blocks with different prefix lengths, merge returns
the containing block when one range fully contains the other (inclusive
comparisons), and no result when neither contains the other.  In particular
merging 10.0.0.0/24 with 10.0.0.0/25 (equal first address) yields
10.0.0.0/24. -/
theorem merge_containment_iff :
    (∀ b1 b2 : IP_Block, b1.Wf → b2.Wf →
      Address.sameType b1.address b2.address = true →
      b1.plen ≠ b2.plen →
      ((IP_Block.firstAddress b2 ≤ IP_Block.firstAddress b1 ∧
          IP_Block.lastAddress b1 ≤ IP_Block.lastAddress b2 →
        ∃ m, IP_Block.mergeResult b1 b2 = .ok (some m) ∧
          m.plen = b2.plen ∧
          IP_Block.firstAddress m = IP_Block.firstAddress b2 ∧
          Address.sameType m.address b2.address = true) ∧
       (¬ (IP_Block.firstAddress b2 ≤ IP_Block.firstAddress b1 ∧
            IP_Block.lastAddress b1 ≤ IP_Block.lastAddress b2) →
        IP_Block.firstAddress b1 ≤ IP_Block.firstAddress b2 ∧
          IP_Block.lastAddress b2 ≤ IP_Block.lastAddress b1 →
        ∃ m, IP_Block.mergeResult b1 b2 = .ok (some m) ∧
          m.plen = b1.plen ∧
          IP_Block.firstAddress m = IP_Block.firstAddress b1 ∧
          Address.sameType m.address b1.address = true) ∧
       (¬ (IP_Block.firstAddress b2 ≤ IP_Block.firstAddress b1 ∧
            IP_Block.lastAddress b1 ≤ IP_Block.lastAddress b2) →
        ¬ (IP_Block.firstAddress b1 ≤ IP_Block.firstAddress b2 ∧
            IP_Block.lastAddress b2 ≤ IP_Block.lastAddress b1) →
        IP_Block.mergeResult b1 b2 = .ok none))) ∧
    IP_Block.mergeResult ⟨Address.v4 0x0A000000, 24, 0xFFFFFF00⟩
        ⟨Address.v4 0x0A000000, 25, 0xFFFFFF80⟩ =
      .ok (some ⟨Address.v4 0x0A000000, 24, 0xFFFFFF00⟩) := by
  refine ⟨?_, by decide⟩
  intro b1 b2 hw1 hw2 hfam hpl
  have hmaskne := mask_ne_of_ne_plen hw1 hw2 hfam hpl
  obtain ⟨hz1, hr1, hm1, hv1⟩ := (wf_iff b1).mp hw1
  obtain ⟨hz2, hr2, hm2, hv2⟩ := (wf_iff b2).mp hw2
  refine ⟨?_, ?_, ?_⟩
  · intro hcont
    have hmk := make_dualAdj_keep (a := b2.address) (x := b1.address)
      (y := b2.address) hr2 (by rw [← hm2]; exact hv2)
    have hplc : b2.plen = ((b2.plen.toNat : Nat) : Int) :=
      (Int.toNat_of_nonneg hz2).symm
    unfold IP_Block.mergeResult IP_Block.merge
    rw [sameType_self, if_neg (by simp), if_neg hmaskne, if_pos hcont, hplc, hmk]
    refine ⟨_, rfl, rfl, ?_, ?_⟩
    · show Address.addressInt (Address.dualAdj b2.address b1.address b2.address) =
        Address.addressInt b2.address
      exact dualAdj_int _ _ _
    · show Address.sameType
        (Address.dualAdj b2.address b1.address b2.address) b2.address = true
      rw [sameType_dualAdj]
      exact sameType_self _
  · intro hnc1 hcont
    have hmk := make_dualAdj_keep (a := b1.address) (x := b1.address)
      (y := b2.address) hr1 (by rw [← hm1]; exact hv1)
    have hplc : b1.plen = ((b1.plen.toNat : Nat) : Int) :=
      (Int.toNat_of_nonneg hz1).symm
    unfold IP_Block.mergeResult IP_Block.merge
    rw [sameType_self, if_neg (by simp), if_neg hmaskne, if_neg hnc1,
      if_pos hcont, hplc, hmk]
    refine ⟨_, rfl, rfl, ?_, ?_⟩
    · show Address.addressInt (Address.dualAdj b1.address b1.address b2.address) =
        Address.addressInt b1.address
      exact dualAdj_int _ _ _
    · show Address.sameType
        (Address.dualAdj b1.address b1.address b2.address) b1.address = true
      rw [sameType_dualAdj]
      exact sameType_self _
  · intro hnc1 hnc2
    unfold IP_Block.mergeResult IP_Block.merge
    rw [sameType_self, if_neg (by simp), if_neg hmaskne, if_neg hnc1, if_neg hnc2]
    rfl

/-- C3: for every address and every prefix length within [0, addressLength],
constructing an IP_Block fails with InvalidNetworkAddress exactly when the
base address has a nonzero bit outside the prefix mask; in particular
10.0.0.1/24 fails while 10.0.0.0/24 succeeds with lastAddress 10.0.0.255. -/
theorem make_invalidNetworkAddress_iff :
    (∀ (a : Address) (p : Int), 0 ≤ p → p ≤ (Address.addressLength a : Int) →
      ∃ mask, prefixToMask (Address.addressLength a) p = .ok mask ∧
        (IP_Block.make a p = .error .invalidNetworkAddress ↔
          pyAndNot (Address.addressInt a) mask ≠ 0) ∧
        (pyAndNot (Address.addressInt a) mask = 0 →
          IP_Block.make a p = .ok ⟨a, p, mask⟩)) ∧
    IP_Block.make (Address.v4 0x0A000001) 24 = .error .invalidNetworkAddress ∧
    IP_Block.make (Address.v4 0x0A000000) 24 =
      .ok ⟨Address.v4 0x0A000000, 24, 0xFFFFFF00⟩ ∧
    IP_Block.lastAddress ⟨Address.v4 0x0A000000, 24, 0xFFFFFF00⟩ = 0x0A0000FF := by
  refine ⟨?_, by decide, by decide, by decide⟩
  intro a p hz hle
  obtain ⟨n, rfl⟩ : ∃ n : Nat, p = (n : Int) := ⟨p.toNat, (Int.toNat_of_nonneg hz).symm⟩
  have hpn : n ≤ Address.addressLength a := by omega
  refine ⟨maskVal (Address.addressLength a) n, prefixToMask_ok n hpn, ?_, ?_⟩
  · constructor
    · intro h hc0
      rw [make_ok hpn hc0] at h
      exact Except.noConfusion h
    · intro hne
      unfold IP_Block.make
      rw [prefixToMask_ok n hpn]
      show (if pyAndNot (Address.addressInt a)
            (maskVal (Address.addressLength a) n) ≠ 0 then
          (.error .invalidNetworkAddress : Except PyErr IP_Block)
        else .ok ⟨a, (n : Int), maskVal (Address.addressLength a) n⟩) = _
      rw [if_pos hne]
  · intro h0
    exact make_ok hpn h0

/-- C4: prefixToMask's documented values hold, but the range guard is off by
one: the source checks `prefix > len(masks)` with `len(masks) = bitLength+1`,
so at prefix = bitLength + 1 the guard does not fire and the list index
raises IndexError instead of InvalidPrefix; only from bitLength + 2 upward
(and for negative prefixes) is InvalidPrefix raised. -/
theorem prefixToMask_values_and_guard :
    (∀ (w q : Nat), q ≤ w → prefixToMask w (q : Int) = .ok (maskVal w q)) ∧
    (∀ (w : Nat) (p : Int),
      prefixToMask w p = .error .invalidPrefix ↔ (p < 0 ∨ p > (w : Int) + 1)) ∧
    (∀ w : Nat, prefixToMask w ((w : Int) + 1) = .error .indexError) ∧
    prefixToMask 32 0 = .ok 0 ∧
    prefixToMask 32 32 = .ok 0xFFFFFFFF ∧
    prefixToMask 32 24 = .ok 0xFFFFFF00 ∧
    prefixToMask 128 64 = .ok (((2 : Nat) ^ 64 - 1) <<< 64) ∧
    prefixToMask 32 (-1) = .error .invalidPrefix ∧
    prefixToMask 32 33 = .error .indexError ∧
    prefixToMask 32 34 = .error .invalidPrefix := by
  refine ⟨fun w q hq => prefixToMask_ok q hq, ?_, ?_, by decide, by decide,
    by decide, by decide, by decide, by decide, by decide⟩
  · intro w p
    unfold prefixToMask
    by_cases h0 : p < 0
    · rw [if_pos h0]
      exact ⟨fun _ => Or.inl h0, fun _ => rfl⟩
    · rw [if_neg h0]
      by_cases h1 : p > ((generateMasks w).length : Int)
      · rw [if_pos h1, generateMasks_length] at *
        refine ⟨fun _ => Or.inr (by push_cast at h1 ⊢; omega), fun _ => rfl⟩
      · rw [if_neg h1]
        rw [generateMasks_length] at h1
        push_cast at h1
        by_cases h2 : p.toNat ≤ w
        · rw [generateMasks_get w p.toNat h2]
          show (Except.ok (maskVal w p.toNat) : Except PyErr Nat) =
            .error .invalidPrefix ↔ (p < 0 ∨ p > (w : Int) + 1)
          refine ⟨fun hc => Except.noConfusion hc, fun hc => ?_⟩
          exfalso
          rcases hc with hc | hc <;> omega
        · have hnone : (generateMasks w)[p.toNat]? = none := by
            apply List.getElem?_eq_none
            rw [generateMasks_length]
            omega
          rw [hnone]
          show (Except.error .indexError : Except PyErr Nat) =
            .error .invalidPrefix ↔ (p < 0 ∨ p > (w : Int) + 1)
          refine ⟨fun hc => ?_, fun hc => ?_⟩
          · exact PyErr.noConfusion (Except.error.inj hc)
          · exfalso
            rcases hc with hc | hc <;> omega
  · intro w
    unfold prefixToMask
    rw [if_neg (by omega), if_neg (by rw [generateMasks_length]; push_cast; omega)]
    have hnone : (generateMasks w)[((w : Int) + 1).toNat]? = none := by
      apply List.getElem?_eq_none
      rw [generateMasks_length]
      omega
    rw [hnone]

/-- C5: merge is not symmetric.  The family guard at the top of merge
compares `type(block1.address)` with itself, so cross-family pairs reach the
containment tests; for the well-formed blocks 0.0.0.0/32 (IPv4) and ::/128
(IPv6), whose ranges are both [0,0], merge(A,B) returns the IPv6 block while
merge(B,A) returns the IPv4 block. -/
theorem merge_not_symmetric_cross_family :
    IP_Block.mergeResult ⟨Address.v4 0, 32, 0xFFFFFFFF⟩
        ⟨Address.v6 [0, 0, 0, 0, 0, 0, 0, 0] false, 128, 2 ^ 128 - 1⟩ =
      .ok (some ⟨Address.v6 [0, 0, 0, 0, 0, 0, 0, 0] false, 128, 2 ^ 128 - 1⟩) ∧
    IP_Block.mergeResult ⟨Address.v6 [0, 0, 0, 0, 0, 0, 0, 0] false, 128, 2 ^ 128 - 1⟩
        ⟨Address.v4 0, 32, 0xFFFFFFFF⟩ =
      .ok (some ⟨Address.v4 0, 32, 0xFFFFFFFF⟩) ∧
    IP_Block.mergeResult ⟨Address.v4 0, 32, 0xFFFFFFFF⟩
        ⟨Address.v6 [0, 0, 0, 0, 0, 0, 0, 0] false, 128, 2 ^ 128 - 1⟩ ≠
      IP_Block.mergeResult ⟨Address.v6 [0, 0, 0, 0, 0, 0, 0, 0] false, 128, 2 ^ 128 - 1⟩
        ⟨Address.v4 0, 32, 0xFFFFFFFF⟩ ∧
    IP_Block.Wf ⟨Address.v4 0, 32, 0xFFFFFFFF⟩ ∧
    IP_Block.Wf ⟨Address.v6 [0, 0, 0, 0, 0, 0, 0, 0] false, 128, 2 ^ 128 - 1⟩ := by
  exact ⟨by decide, by decide, by decide, by decide, by decide⟩

/-- C10 counterexample: merging two well-formed IPv6 /128 blocks with the
same integer value but different dual flags succeeds, and the post-merge
state of block1 has a different address value (its dual flag was overwritten
with the AND), so merge does not leave its inputs unchanged. -/
theorem merge_mutates_dual_cex :
    IP_Block.merge
        ⟨Address.v6 [0, 0, 0, 0, 0, 0xffff, 0x0102, 0x0304] true, 128, 2 ^ 128 - 1⟩
        ⟨Address.v6 [0, 0, 0, 0, 0, 0xffff, 0x0102, 0x0304] false, 128, 2 ^ 128 - 1⟩ =
      .ok (some ⟨Address.v6 [0, 0, 0, 0, 0, 0xffff, 0x0102, 0x0304] false, 128,
            2 ^ 128 - 1⟩,
          ⟨Address.v6 [0, 0, 0, 0, 0, 0xffff, 0x0102, 0x0304] false, 128, 2 ^ 128 - 1⟩,
          ⟨Address.v6 [0, 0, 0, 0, 0, 0xffff, 0x0102, 0x0304] false, 128, 2 ^ 128 - 1⟩) ∧
    (Address.v6 [0, 0, 0, 0, 0, 0xffff, 0x0102, 0x0304] false ≠
      Address.v6 [0, 0, 0, 0, 0, 0xffff, 0x0102, 0x0304] true) ∧
    IP_Block.Wf ⟨Address.v6 [0, 0, 0, 0, 0, 0xffff, 0x0102, 0x0304] true, 128,
      2 ^ 128 - 1⟩ ∧
    IP_Block.Wf ⟨Address.v6 [0, 0, 0, 0, 0, 0xffff, 0x0102, 0x0304] false, 128,
      2 ^ 128 - 1⟩ := by
  exact ⟨by decide, by decide, by decide, by decide⟩

/-- Inversion of a successful construction: the block holds exactly the
address and prefix passed in. -/
theorem make_inv {a : Address} {p : Int} {b : IP_Block}
    (h : IP_Block.make a p = .ok b) : b.address = a ∧ b.plen = p := by
  unfold IP_Block.make at h
  cases hpm : prefixToMask (Address.addressLength a) p with
  | error e => rw [hpm] at h; cases h
  | ok mask =>
    rw [hpm] at h
    replace h : (if pyAndNot (Address.addressInt a) mask ≠ 0 then
        (.error .invalidNetworkAddress : Except PyErr IP_Block)
      else .ok ⟨a, p, mask⟩) = .ok b := h
    by_cases ht : pyAndNot (Address.addressInt a) mask ≠ 0
    · rw [if_pos ht] at h; cases h
    · rw [if_neg ht] at h
      have := Except.ok.inj h
      rw [← this]
      exact ⟨rfl, rfl⟩

theorem dualFlag_dualAdj_v6 (s s1 s2 : List Nat) (d d1 d2 : Bool) :
    Address.dualFlag
      (Address.dualAdj (.v6 s d) (.v6 s1 d1) (.v6 s2 d2)) = (d1 && d2) := rfl

/-- C10 (amended): a successful merge leaves the integer values and prefix
lengths of both input blocks unchanged, and when both inputs are IPv6 the
merged block's dual flag is the AND of the two inputs' dual flags; but the
dual flag of the input address object a branch reuses is overwritten with
that AND, so an input block's address value can change (see the
counterexample). -/
theorem merge_frame_amended :
    ∀ b1 b2 m b1' b2' : IP_Block,
      IP_Block.merge b1 b2 = .ok (some m, b1', b2') →
      Address.addressInt b1'.address = Address.addressInt b1.address ∧
      Address.addressInt b2'.address = Address.addressInt b2.address ∧
      b1'.plen = b1.plen ∧ b2'.plen = b2.plen ∧
      (∀ s1 d1 s2 d2, b1.address = .v6 s1 d1 → b2.address = .v6 s2 d2 →
        Address.dualFlag m.address = (d1 && d2)) := by
  intro b1 b2 m b1' b2' h
  unfold IP_Block.merge at h
  rw [sameType_self, if_neg (by simp)] at h
  by_cases hmask : b1.mask = b2.mask
  · rw [if_pos hmask] at h
    by_cases hbeq : Address.beq b1.address b2.address = true
    · rw [if_pos hbeq] at h
      cases hmk : IP_Block.make
          (Address.dualAdj b1.address b1.address b2.address) b1.plen with
      | error e => rw [hmk] at h; cases h
      | ok m0 =>
        rw [hmk] at h
        replace h : (Except.ok (some m0,
            { b1 with address := Address.dualAdj b1.address b1.address b2.address },
            b2) : Except PyErr (Option IP_Block × IP_Block × IP_Block)) =
          .ok (some m, b1', b2') := h
        simp only [Except.ok.injEq, Prod.mk.injEq, Option.some.injEq] at h
        obtain ⟨hm, hb1, hb2⟩ := h
        subst hm hb1 hb2
        refine ⟨dualAdj_int _ _ _, rfl, rfl, rfl, ?_⟩
        intro s1 d1 s2 d2 ha1 ha2
        obtain ⟨hma, _⟩ := make_inv hmk
        rw [hma, ha1, ha2]
        exact dualFlag_dualAdj_v6 _ _ _ _ _ _
    · rw [if_neg hbeq] at h
      by_cases hadj1 : (IP_Block.lastAddress b1 : Int) =
          (IP_Block.firstAddress b2 : Int) - 1
      · rw [if_pos hadj1] at h
        by_cases htst : pyAndNot (Address.addressInt b1.address)
            (b1.mask <<< 1) = 0
        · rw [if_pos htst] at h
          cases hmk : IP_Block.make
              (Address.dualAdj b1.address b1.address b2.address)
              (b1.plen - 1) with
          | error e => rw [hmk] at h; cases h
          | ok m0 =>
            rw [hmk] at h
            replace h : (Except.ok (some m0,
                { b1 with
                  address := Address.dualAdj b1.address b1.address b2.address },
                b2) : Except PyErr (Option IP_Block × IP_Block × IP_Block)) =
              .ok (some m, b1', b2') := h
            simp only [Except.ok.injEq, Prod.mk.injEq, Option.some.injEq] at h
            obtain ⟨hm, hb1, hb2⟩ := h
            subst hm hb1 hb2
            refine ⟨dualAdj_int _ _ _, rfl, rfl, rfl, ?_⟩
            intro s1 d1 s2 d2 ha1 ha2
            obtain ⟨hma, _⟩ := make_inv hmk
            rw [hma, ha1, ha2]
            exact dualFlag_dualAdj_v6 _ _ _ _ _ _
        · rw [if_neg htst] at h
          simp at h
      · rw [if_neg hadj1] at h
        by_cases hadj2 : (IP_Block.lastAddress b2 : Int) =
            (IP_Block.firstAddress b1 : Int) - 1
        · rw [if_pos hadj2] at h
          by_cases htst : pyAndNot (Address.addressInt b2.address)
              (b2.mask <<< 1) = 0
          · rw [if_pos htst] at h
            cases hmk : IP_Block.make
                (Address.dualAdj b2.address b1.address b2.address)
                (b2.plen - 1) with
            | error e => rw [hmk] at h; cases h
            | ok m0 =>
              rw [hmk] at h
              replace h : (Except.ok (some m0, b1,
                  { b2 with
                    address := Address.dualAdj b2.address b1.address b2.address })
                  : Except PyErr (Option IP_Block × IP_Block × IP_Block)) =
                .ok (some m, b1', b2') := h
              simp only [Except.ok.injEq, Prod.mk.injEq, Option.some.injEq] at h
              obtain ⟨hm, hb1, hb2⟩ := h
              subst hm hb1 hb2
              refine ⟨rfl, dualAdj_int _ _ _, rfl, rfl, ?_⟩
              intro s1 d1 s2 d2 ha1 ha2
              obtain ⟨hma, _⟩ := make_inv hmk
              rw [hma, ha1, ha2]
              exact dualFlag_dualAdj_v6 _ _ _ _ _ _
          · rw [if_neg htst] at h
            simp at h
        · rw [if_neg hadj2] at h
          simp at h
  · rw [if_neg hmask] at h
    by_cases hc1 : IP_Block.firstAddress b2 ≤ IP_Block.firstAddress b1 ∧
        IP_Block.lastAddress b1 ≤ IP_Block.lastAddress b2
    · rw [if_pos hc1] at h
      cases hmk : IP_Block.make
          (Address.dualAdj b2.address b1.address b2.address) b2.plen with
      | error e => rw [hmk] at h; cases h
      | ok m0 =>
        rw [hmk] at h
        replace h : (Except.ok (some m0, b1,
            { b2 with address := Address.dualAdj b2.address b1.address b2.address })
            : Except PyErr (Option IP_Block × IP_Block × IP_Block)) =
          .ok (some m, b1', b2') := h
        simp only [Except.ok.injEq, Prod.mk.injEq, Option.some.injEq] at h
        obtain ⟨hm, hb1, hb2⟩ := h
        subst hm hb1 hb2
        refine ⟨rfl, dualAdj_int _ _ _, rfl, rfl, ?_⟩
        intro s1 d1 s2 d2 ha1 ha2
        obtain ⟨hma, _⟩ := make_inv hmk
        rw [hma, ha1, ha2]
        exact dualFlag_dualAdj_v6 _ _ _ _ _ _
    · rw [if_neg hc1] at h
      by_cases hc2 : IP_Block.firstAddress b1 ≤ IP_Block.firstAddress b2 ∧
          IP_Block.lastAddress b2 ≤ IP_Block.lastAddress b1
      · rw [if_pos hc2] at h
        cases hmk : IP_Block.make
            (Address.dualAdj b1.address b1.address b2.address) b1.plen with
        | error e => rw [hmk] at h; cases h
        | ok m0 =>
          rw [hmk] at h
          replace h : (Except.ok (some m0,
              { b1 with address := Address.dualAdj b1.address b1.address b2.address },
              b2) : Except PyErr (Option IP_Block × IP_Block × IP_Block)) =
            .ok (some m, b1', b2') := h
          simp only [Except.ok.injEq, Prod.mk.injEq, Option.some.injEq] at h
          obtain ⟨hm, hb1, hb2⟩ := h
          subst hm hb1 hb2
          refine ⟨dualAdj_int _ _ _, rfl, rfl, rfl, ?_⟩
          intro s1 d1 s2 d2 ha1 ha2
          obtain ⟨hma, _⟩ := make_inv hmk
          rw [hma, ha1, ha2]
          exact dualFlag_dualAdj_v6 _ _ _ _ _ _
      · rw [if_neg hc2] at h
        simp at h

theorem merge_frame_amended_witness :
    Address.addressInt
        (⟨Address.v6 [0, 0, 0, 0, 0, 0xffff, 0x0102, 0x0304] false, 128,
          2 ^ 128 - 1⟩ : IP_Block).address =
      Address.addressInt
        (⟨Address.v6 [0, 0, 0, 0, 0, 0xffff, 0x0102, 0x0304] true, 128,
          2 ^ 128 - 1⟩ : IP_Block).address ∧
    Address.addressInt
        (⟨Address.v6 [0, 0, 0, 0, 0, 0xffff, 0x0102, 0x0304] false, 128,
          2 ^ 128 - 1⟩ : IP_Block).address =
      Address.addressInt
        (⟨Address.v6 [0, 0, 0, 0, 0, 0xffff, 0x0102, 0x0304] false, 128,
          2 ^ 128 - 1⟩ : IP_Block).address ∧
    (⟨Address.v6 [0, 0, 0, 0, 0, 0xffff, 0x0102, 0x0304] false, 128,
        2 ^ 128 - 1⟩ : IP_Block).plen =
      (⟨Address.v6 [0, 0, 0, 0, 0, 0xffff, 0x0102, 0x0304] true, 128,
        2 ^ 128 - 1⟩ : IP_Block).plen ∧
    (⟨Address.v6 [0, 0, 0, 0, 0, 0xffff, 0x0102, 0x0304] false, 128,
        2 ^ 128 - 1⟩ : IP_Block).plen =
      (⟨Address.v6 [0, 0, 0, 0, 0, 0xffff, 0x0102, 0x0304] false, 128,
        2 ^ 128 - 1⟩ : IP_Block).plen ∧
    (∀ s1 d1 s2 d2,
      (⟨Address.v6 [0, 0, 0, 0, 0, 0xffff, 0x0102, 0x0304] true, 128,
        2 ^ 128 - 1⟩ : IP_Block).address = .v6 s1 d1 →
      (⟨Address.v6 [0, 0, 0, 0, 0, 0xffff, 0x0102, 0x0304] false, 128,
        2 ^ 128 - 1⟩ : IP_Block).address = .v6 s2 d2 →
      Address.dualFlag
        (⟨Address.v6 [0, 0, 0, 0, 0, 0xffff, 0x0102, 0x0304] false, 128,
          2 ^ 128 - 1⟩ : IP_Block).address = (d1 && d2)) :=
  merge_frame_amended
    ⟨Address.v6 [0, 0, 0, 0, 0, 0xffff, 0x0102, 0x0304] true, 128, 2 ^ 128 - 1⟩
    ⟨Address.v6 [0, 0, 0, 0, 0, 0xffff, 0x0102, 0x0304] false, 128, 2 ^ 128 - 1⟩
    ⟨Address.v6 [0, 0, 0, 0, 0, 0xffff, 0x0102, 0x0304] false, 128, 2 ^ 128 - 1⟩
    ⟨Address.v6 [0, 0, 0, 0, 0, 0xffff, 0x0102, 0x0304] false, 128, 2 ^ 128 - 1⟩
    ⟨Address.v6 [0, 0, 0, 0, 0, 0xffff, 0x0102, 0x0304] false, 128, 2 ^ 128 - 1⟩
    (by decide)

/-- Python str.split(sep) for a one-character separator: split on every
occurrence, keeping empty parts; the empty string gives one empty part. -/
def splitOnChar (c : Char) : List Char → List (List Char)
  | [] => [[]]
  | x :: rest =>
    if x = c then [] :: splitOnChar c rest
    else
      match splitOnChar c rest with
      | g :: gs => (x :: g) :: gs
      | [] => [[x]]

/-- Python str.strip(): drop leading and trailing whitespace.  (Python also
strips a few non-ASCII space characters; the inputs here are ASCII.) -/
def stripChars (cs : List Char) : List Char :=
  ((cs.dropWhile Char.isWhitespace).reverse.dropWhile Char.isWhitespace).reverse

/-- Python int(s) in base 10 on the strings the parsers pass: optional
surrounding whitespace, an optional sign, then one or more decimal digits;
anything else raises ValueError, modelled as none.  (Underscore digit
separators and non-ASCII digits, which Python also accepts, are not
modelled; no input of the claims uses them.) -/
def pyInt (cs : List Char) : Option Int :=
  let cs1 := stripChars cs
  let sr : Int × List Char :=
    match cs1 with
    | '-' :: rest => (-1, rest)
    | '+' :: rest => (1, rest)
    | _ => (1, cs1)
  if sr.2 = [] then none
  else if sr.2.all (fun c => c.isDigit) then
    some (sr.1 * (sr.2.foldl (fun acc c => acc * 10 + ((c.toNat - 48 : Nat) : Int)) 0))
  else none

def isHexDigitChar (c : Char) : Bool :=
  c.isDigit || (decide ('a' ≤ c) && decide (c ≤ 'f')) ||
    (decide ('A' ≤ c) && decide (c ≤ 'F'))

def hexDigitVal (c : Char) : Nat :=
  if c.isDigit then c.toNat - 48
  else if decide ('a' ≤ c) && decide (c ≤ 'f') then c.toNat - 87
  else c.toNat - 55

/-- Python int(s, 16) on the strings the IPv6 parser passes: optional
surrounding whitespace, optional sign, optional 0x/0X, then one or more hex
digits (same modelling caveat as pyInt). -/
def pyHexInt (cs : List Char) : Option Int :=
  let cs1 := stripChars cs
  let sr : Int × List Char :=
    match cs1 with
    | '-' :: rest => (-1, rest)
    | '+' :: rest => (1, rest)
    | _ => (1, cs1)
  let ds : List Char :=
    match sr.2 with
    | '0' :: 'x' :: rest => rest
    | '0' :: 'X' :: rest => rest
    | _ => sr.2
  if ds = [] then none
  else if ds.all isHexDigitChar then
    some (sr.1 * (ds.foldl (fun acc c => acc * 16 + (hexDigitVal c : Int)) 0))
  else none

/-- Python sep.join(parts) for a one-character separator. -/
def joinChar (sep : Char) : List (List Char) → List Char
  | [] => []
  | [g] => g
  | g :: gs => g ++ sep :: joinChar sep gs

namespace IPv4_Address

/-- The loop of IPv4_Address.parse (src/address.py lines 103-112): octet i
must parse with int() (a ValueError is caught and yields None) and lie in
[0, 255]; it lands at bit position (4 - i - 1) * 8.  The source runs the
loop only with exactly four octets, so i < 4 and the Nat subtraction
matches Python's int subtraction. -/
def parseLoop : List (List Char) → Nat → Nat → Option Nat
  | [], _, address => some address
  | o :: rest, i, address =>
    match pyInt o with
    | none => none
    | some octet =>
      if octet < 0 ∨ octet > 255 then none
      else parseLoop rest (i + 1) (address ||| (octet.toNat <<< ((4 - i - 1) * 8)))

/-- IPv4_Address.parse (src/address.py lines 96-114): split on '.', require
exactly 4 groups, then run the octet loop.  Returns the 32-bit integer of
the parsed address. -/
def parse (cs : List Char) : Option Nat :=
  let octets := splitOnChar '.' cs
  if octets.length ≠ 4 then none
  else parseLoop octets 0 0

/-- IPv4_Address.toString (src/address.py lines 116-117): the four
big-endian bytes of the 32-bit value (Address.__bytes__ is
to_bytes(4, "big")), each rendered in decimal, joined with dots.  Every
value reaching it is below 2^32 (to_bytes would raise otherwise); byte i is
(n >> 8*(3-i)) % 256. -/
def toStringChars (n : Nat) : List Char :=
  joinChar '.' ((List.range 4).map (fun i => Nat.toDigits 10 ((n >>> (8 * (3 - i))) % 256)))

end IPv4_Address

theorem parseLoop_isSome (os : List (List Char)) :
    ∀ (i acc : Nat),
      (IPv4_Address.parseLoop os i acc).isSome = true ↔
        ∀ o ∈ os, ∃ n : Int, pyInt o = some n ∧ 0 ≤ n ∧ n ≤ 255 := by
  induction os with
  | nil =>
    intro i acc
    simp [IPv4_Address.parseLoop]
  | cons o rest ih =>
    intro i acc
    cases hp : pyInt o with
    | none =>
      have hred : IPv4_Address.parseLoop (o :: rest) i acc = none := by
        conv_lhs => unfold IPv4_Address.parseLoop
        rw [hp]
      rw [hred]
      simp only [Option.isSome_none, Bool.false_eq_true, false_iff]
      intro hc
      obtain ⟨n, hn, _⟩ := hc o (by simp)
      rw [hp] at hn
      cases hn
    | some n =>
      have hred : IPv4_Address.parseLoop (o :: rest) i acc =
          (if n < 0 ∨ n > 255 then none
           else IPv4_Address.parseLoop rest (i + 1)
             (acc ||| n.toNat <<< ((4 - i - 1) * 8))) := by
        conv_lhs => unfold IPv4_Address.parseLoop
        rw [hp]
      rw [hred]
      by_cases hr : n < 0 ∨ n > 255
      · rw [if_pos hr]
        simp only [Option.isSome_none, Bool.false_eq_true, false_iff]
        intro hc
        obtain ⟨n', hn', h0, h255⟩ := hc o (by simp)
        rw [hp] at hn'
        cases hn'
        omega
      · rw [if_neg hr]
        rw [ih]
        constructor
        · intro hall o' ho'
          rcases List.mem_cons.mp ho' with he | hm
          · subst he
            exact ⟨n, hp, by omega, by omega⟩
          · exact hall o' hm
        · intro hall o' ho'
          exact hall o' (List.mem_cons_of_mem _ ho')

/-- The value a successful IPv4 parse builds: each octet shifted into its
big-endian byte position and or-ed into the accumulator, exactly as the
source loop does. -/
theorem ipv4_parse_value {cs : List Char} {v : Nat}
    (h : IPv4_Address.parse cs = some v) :
    ∃ g0 g1 g2 g3 n0 n1 n2 n3,
      splitOnChar '.' cs = [g0, g1, g2, g3] ∧
      pyInt g0 = some n0 ∧ pyInt g1 = some n1 ∧
      pyInt g2 = some n2 ∧ pyInt g3 = some n3 ∧
      v = (((0 ||| n0.toNat <<< 24) ||| n1.toNat <<< 16) |||
        n2.toNat <<< 8) ||| n3.toNat <<< 0 := by
  unfold IPv4_Address.parse at h
  by_cases hl : (splitOnChar '.' cs).length ≠ 4
  · rw [if_pos hl] at h; cases h
  · rw [if_neg hl] at h
    have hl4 : (splitOnChar '.' cs).length = 4 := by omega
    rcases hsp : splitOnChar '.' cs with _ | ⟨g0, _ | ⟨g1, _ | ⟨g2, _ | ⟨g3, _ | ⟨g4, t⟩⟩⟩⟩⟩ <;>
      rw [hsp] at hl4 <;> try simp at hl4
    rw [hsp] at h
    cases hp0 : pyInt g0 with
    | none =>
      have hz : IPv4_Address.parseLoop [g0, g1, g2, g3] 0 0 = none := by
        conv_lhs => unfold IPv4_Address.parseLoop
        rw [hp0]
      rw [hz] at h; cases h
    | some n0 =>
      by_cases hr0 : n0 < 0 ∨ n0 > 255
      · have hz : IPv4_Address.parseLoop [g0, g1, g2, g3] 0 0 = none := by
          conv_lhs => unfold IPv4_Address.parseLoop
          rw [hp0]
          show (if n0 < 0 ∨ n0 > 255 then (none : Option Nat)
            else IPv4_Address.parseLoop [g1, g2, g3] 1
              (0 ||| n0.toNat <<< ((4 - 0 - 1) * 8))) = none
          rw [if_pos hr0]
        rw [hz] at h; cases h
      · have hs0 : IPv4_Address.parseLoop [g0, g1, g2, g3] 0 0 =
            IPv4_Address.parseLoop [g1, g2, g3] 1 (0 ||| n0.toNat <<< ((4 - 0 - 1) * 8)) := by
          conv_lhs => unfold IPv4_Address.parseLoop
          rw [hp0]
          show (if n0 < 0 ∨ n0 > 255 then (none : Option Nat)
            else IPv4_Address.parseLoop [g1, g2, g3] 1
              (0 ||| n0.toNat <<< ((4 - 0 - 1) * 8))) = _
          rw [if_neg hr0]
        rw [hs0] at h
        cases hp1 : pyInt g1 with
        | none =>
          have hz : ∀ a : Nat, IPv4_Address.parseLoop [g1, g2, g3] 1 a = none := by
            intro a
            conv_lhs => unfold IPv4_Address.parseLoop
            rw [hp1]
          rw [hz] at h; cases h
        | some n1 =>
          by_cases hr1 : n1 < 0 ∨ n1 > 255
          · have hz : ∀ a : Nat, IPv4_Address.parseLoop [g1, g2, g3] 1 a = none := by
              intro a
              conv_lhs => unfold IPv4_Address.parseLoop
              rw [hp1]
              show (if n1 < 0 ∨ n1 > 255 then (none : Option Nat)
                else IPv4_Address.parseLoop [g2, g3] 2
                  (a ||| n1.toNat <<< ((4 - 1 - 1) * 8))) = none
              rw [if_pos hr1]
            rw [hz] at h; cases h
          · have hs1 : ∀ a : Nat, IPv4_Address.parseLoop [g1, g2, g3] 1 a =
                IPv4_Address.parseLoop [g2, g3] 2 (a ||| n1.toNat <<< ((4 - 1 - 1) * 8)) := by
              intro a
              conv_lhs => unfold IPv4_Address.parseLoop
              rw [hp1]
              show (if n1 < 0 ∨ n1 > 255 then (none : Option Nat)
                else IPv4_Address.parseLoop [g2, g3] 2
                  (a ||| n1.toNat <<< ((4 - 1 - 1) * 8))) = _
              rw [if_neg hr1]
            rw [hs1] at h
            cases hp2 : pyInt g2 with
            | none =>
              have hz : ∀ a : Nat, IPv4_Address.parseLoop [g2, g3] 2 a = none := by
                intro a
                conv_lhs => unfold IPv4_Address.parseLoop
                rw [hp2]
              rw [hz] at h; cases h
            | some n2 =>
              by_cases hr2 : n2 < 0 ∨ n2 > 255
              · have hz : ∀ a : Nat, IPv4_Address.parseLoop [g2, g3] 2 a = none := by
                  intro a
                  conv_lhs => unfold IPv4_Address.parseLoop
                  rw [hp2]
                  show (if n2 < 0 ∨ n2 > 255 then (none : Option Nat)
                    else IPv4_Address.parseLoop [g3] 3
                      (a ||| n2.toNat <<< ((4 - 2 - 1) * 8))) = none
                  rw [if_pos hr2]
                rw [hz] at h; cases h
              · have hs2 : ∀ a : Nat, IPv4_Address.parseLoop [g2, g3] 2 a =
                    IPv4_Address.parseLoop [g3] 3 (a ||| n2.toNat <<< ((4 - 2 - 1) * 8)) := by
                  intro a
                  conv_lhs => unfold IPv4_Address.parseLoop
                  rw [hp2]
                  show (if n2 < 0 ∨ n2 > 255 then (none : Option Nat)
                    else IPv4_Address.parseLoop [g3] 3
                      (a ||| n2.toNat <<< ((4 - 2 - 1) * 8))) = _
                  rw [if_neg hr2]
                rw [hs2] at h
                cases hp3 : pyInt g3 with
                | none =>
                  have hz : ∀ a : Nat, IPv4_Address.parseLoop [g3] 3 a = none := by
                    intro a
                    conv_lhs => unfold IPv4_Address.parseLoop
                    rw [hp3]
                  rw [hz] at h; cases h
                | some n3 =>
                  by_cases hr3 : n3 < 0 ∨ n3 > 255
                  · have hz : ∀ a : Nat, IPv4_Address.parseLoop [g3] 3 a = none := by
                      intro a
                      conv_lhs => unfold IPv4_Address.parseLoop
                      rw [hp3]
                      show (if n3 < 0 ∨ n3 > 255 then (none : Option Nat)
                        else IPv4_Address.parseLoop [] 4
                          (a ||| n3.toNat <<< ((4 - 3 - 1) * 8))) = none
                      rw [if_pos hr3]
                    rw [hz] at h; cases h
                  · have hs3 : ∀ a : Nat, IPv4_Address.parseLoop [g3] 3 a =
                        some (a ||| n3.toNat <<< ((4 - 3 - 1) * 8)) := by
                      intro a
                      conv_lhs => unfold IPv4_Address.parseLoop
                      rw [hp3]
                      show (if n3 < 0 ∨ n3 > 255 then (none : Option Nat)
                        else IPv4_Address.parseLoop [] 4
                          (a ||| n3.toNat <<< ((4 - 3 - 1) * 8))) = _
                      rw [if_neg hr3]
                      unfold IPv4_Address.parseLoop
                      rfl
                    rw [hs3] at h
                    injection h with hv
                    exact ⟨g0, g1, g2, g3, n0, n1, n2, n3, rfl, hp0, hp1, hp2, hp3,
                      hv.symm⟩

/-- C6: IPv4 address parsing is total (the model's Option result: the source
catches the one ValueError the int() call can raise and returns None) and
accepts exactly the texts that split on '.' into four groups, each parsing
as a decimal integer in [0, 255]; the accepted value is the 32-bit
big-endian integer. -/
theorem ipv4_parse_total_iff :
    (∀ cs : List Char,
      (IPv4_Address.parse cs).isSome = true ↔
        ((splitOnChar '.' cs).length = 4 ∧
         ∀ o ∈ splitOnChar '.' cs,
           ∃ n : Int, pyInt o = some n ∧ 0 ≤ n ∧ n ≤ 255)) ∧
    (∀ (cs : List Char) (v : Nat), IPv4_Address.parse cs = some v →
      ∃ g0 g1 g2 g3 n0 n1 n2 n3,
        splitOnChar '.' cs = [g0, g1, g2, g3] ∧
        pyInt g0 = some n0 ∧ pyInt g1 = some n1 ∧
        pyInt g2 = some n2 ∧ pyInt g3 = some n3 ∧
        v = (((0 ||| n0.toNat <<< 24) ||| n1.toNat <<< 16) |||
          n2.toNat <<< 8) ||| n3.toNat <<< 0) ∧
    IPv4_Address.parse "10.0.0.1".data = some 0x0A000001 ∧
    IPv4_Address.parse "192.0.2.1".data = some 0xC0000201 ∧
    IPv4_Address.parse "10.0.0.256".data = none ∧
    IPv4_Address.parse "10.0.0".data = none ∧
    IPv4_Address.parse "10.0.0.x".data = none ∧
    IPv4_Address.parse "-1.0.0.1".data = none := by
  refine ⟨?_, fun cs v h => ipv4_parse_value h, by decide, by decide, by decide,
    by decide, by decide, by decide⟩
  intro cs
  unfold IPv4_Address.parse
  by_cases hl : (splitOnChar '.' cs).length ≠ 4
  · rw [if_pos hl]
    simp only [Option.isSome_none, Bool.false_eq_true, false_iff]
    intro hc
    exact hl hc.1
  · rw [if_neg hl]
    have hl4 : (splitOnChar '.' cs).length = 4 := by omega
    rw [parseLoop_isSome]
    simp [hl4]

/-- IPv6Segments(int) (src/address.py lines 150-163): the 16 big-endian
bytes of the value, paired into eight 16-bit segments.  Only values below
2^128 reach it (to_bytes(16, "big") raises OverflowError otherwise). -/
def segmentsFromInt (n : Nat) : List Nat :=
  (List.range 8).map (fun i => (n >>> (16 * (7 - i))) &&& 0xffff)

/-- Python list.insert(index, x): the index clamps to the list length. -/
def pyInsert (l : List Nat) (idx : Nat) (x : Nat) : List Nat :=
  l.take idx ++ x :: l.drop idx

/-- The zero-fill loop of IPv6_Address.parse (src/address.py lines 301-303):
insert `count` zeros at position `fillAt` (`count` is `8 - len(segmentList)`,
computed once; a nonpositive count runs zero iterations). -/
def insertZeros (l : List Nat) (fillAt : Nat) : Nat → List Nat
  | 0 => l
  | count + 1 => insertZeros (pyInsert l fillAt 0) fillAt count

/-- DualOutputMode (src/address.py lines 129-132). -/
inductive DualOutputMode where
  | forceNormal
  | valueDependent
  | forceDual
deriving DecidableEq, BEq, Repr

namespace IPv6_Address

/-- The main loop of IPv6_Address.parse (src/address.py lines 265-299).
`n` is `len(segments)` after the edge-'::' slicing, `i` the enumerate index;
the state is the segment list built so far, the recorded fill point, and the
dual flag. -/
def parseLoop (n : Nat) :
    List (List Char) → Nat → List Nat → Option Nat → Bool →
      Option (List Nat × Option Nat × Bool)
  | [], _, segmentList, fillAt, dual => some (segmentList, fillAt, dual)
  | seg0 :: rest, i, segmentList, fillAt, dual =>
    if dual then none
    else
      let seg := stripChars seg0
      if seg.length = 0 then
        match fillAt with
        | none => parseLoop n rest (i + 1) segmentList (some i) dual
        | some _ => none
      else if seg.contains '.' then
        if i ≠ n - 1 then none
        else if n > 7 then none
        else
          match IPv4_Address.parse seg with
          | some v4int =>
            parseLoop n rest (i + 1)
              (segmentList ++ [(v4int >>> 16) &&& 0xffff, v4int &&& 0xffff])
              fillAt true
          | none => none
      else
        match pyHexInt seg with
        | none => none
        | some segInt =>
          if segInt < 0 ∨ segInt > 0xffff then none
          else parseLoop n rest (i + 1) (segmentList ++ [segInt.toNat]) fillAt dual

/-- IPv6_Address.parse (src/address.py lines 242-305): strip and remove
spaces, special-case the literal "::", split on ':', reject more than 8
groups, record a leading or trailing "::" as the fill point, run the group
loop, then insert zero segments at the fill point up to 8 segments. -/
def parse (s : String) : Option Address :=
  let cs := (stripChars s.data).filter (fun c => c ≠ ' ')
  if cs = [':' , ':'] then some (.v6 (segmentsFromInt 0) false)
  else
    let segments := splitOnChar ':' cs
    if segments.length > 8 then none
    else
      let ef : List (List Char) × Option Nat :=
        if List.isPrefixOf [':' , ':'] cs then (segments.drop 2, some 0)
        else if List.isSuffixOf [':' , ':'] cs then
          (segments.take (segments.length - 2),
           some (segments.take (segments.length - 2)).length)
        else (segments, none)
      match parseLoop ef.1.length ef.1 0 [] ef.2 false with
      | none => none
      | some (segmentList, fillAt, dual) =>
        match fillAt with
        | some fa =>
          some (.v6 (insertZeros segmentList fa (8 - segmentList.length)) dual)
        | none => some (.v6 segmentList dual)

/-- IPv6_Address.findLongestZeroSegmentString (src/address.py lines
307-326), as a recursion over the remaining segments: `i` is the loop index;
the empty-list step is the loop's extra final iteration (`range(len + 1)`),
which can only flush the run in progress. -/
def flzGo : List Nat → Nat → Nat → Option Nat → Nat → Option Nat →
    Option Nat × Nat
  | [], _, maxZeros, maxZerosIndex, currentZeros, currentZerosIndex =>
    if currentZeros > 0 then
      if currentZeros > maxZeros then (currentZerosIndex, currentZeros)
      else (maxZerosIndex, maxZeros)
    else (maxZerosIndex, maxZeros)
  | seg :: rest, i, maxZeros, maxZerosIndex, currentZeros, currentZerosIndex =>
    if seg = 0 then
      flzGo rest (i + 1) maxZeros maxZerosIndex (currentZeros + 1)
        (if currentZerosIndex = none then some i else currentZerosIndex)
    else if currentZeros > 0 then
      if currentZeros > maxZeros then
        flzGo rest (i + 1) currentZeros currentZerosIndex 0 none
      else flzGo rest (i + 1) maxZeros maxZerosIndex 0 none
    else flzGo rest (i + 1) maxZeros maxZerosIndex currentZeros currentZerosIndex

def findLongestZeroSegmentString (segments : List Nat) : Option Nat × Nat :=
  flzGo segments 0 0 none 0 none

/-- IPv6_Address.__toHex (src/address.py lines 328-330): hex(x) without the
0x, lowercase, no leading-zero padding ("0" for zero). -/
def toHexChars (numbers : List Nat) : List (List Char) :=
  numbers.map (fun x => Nat.toDigits 16 x)

/-- Python str.rjust(width, fill). -/
def rjustChars (cs : List Char) (width : Nat) (fill : Char) : List Char :=
  List.replicate (width - cs.length) fill ++ cs

/-- IPv6_Address.__getCompressed (src/address.py lines 332-349).  `en` is
the source's local variable `end` (a Lean keyword). -/
def getCompressed (segments : List Nat) (dual : Bool) : List Char :=
  let en := if ¬ dual then 8 else 6
  let segs := segments.take en
  let zp := findLongestZeroSegmentString segs
  match zp.1 with
  | none => joinChar ':' (toHexChars segs)
  | some zeroPadIndex =>
    if zp.2 < 2 then joinChar ':' (toHexChars segs)
    else
      let left := joinChar ':' (toHexChars (segs.take zeroPadIndex))
      let right := joinChar ':' (toHexChars (segs.drop (zeroPadIndex + zp.2)))
      if left.length > 0 ∧ right.length > 0 then left ++ ':' :: ':' :: right
      else if left.length = 0 then ':' :: ':' :: right
      else left ++ [':' , ':']

/-- IPv6_Address.__getFull (src/address.py lines 352-354).  Note the slice
is `segments[: end + 1]`, exactly as in the source: with end = 6 (dual
rendering) it keeps SEVEN segments. -/
def getFull (segments : List Nat) (dual : Bool) : List Char :=
  let en := if ¬ dual then 8 else 6
  joinChar ':'
    ((segments.take (en + 1)).map (fun x => rjustChars (Nat.toDigits 16 x) 4 '0'))

/-- IPv6_Address.toString (src/address.py lines 356-366) on an address with
segment list `segments` and dual flag `dualFlag`.  Python's
`self.__dual and dualOutputMode == VALUE_DEPENDENT or dualOutputMode ==
FORCE_DUAL` parses as `(dual and mode == ValueDependent) or (mode ==
ForceDual)`.  The ipv4 property is IPv4_Address(addressInt & 0xffffffff). -/
def toString (segments : List Nat) (dualFlag : Bool)
    (compressed uppercase : Bool) (dualOutputMode : DualOutputMode) : String :=
  let outDual := dualFlag && (dualOutputMode == DualOutputMode.valueDependent)
    || (dualOutputMode == DualOutputMode.forceDual)
  let result0 := if compressed then getCompressed segments outDual
    else getFull segments outDual
  let result := if uppercase then result0.map Char.toUpper
    else result0.map Char.toLower
  if outDual then
    String.mk ((if result.getLast? ≠ some ':' then result ++ [':'] else result)
      ++ IPv4_Address.toStringChars (Address.segmentsInt segments &&& 0xffffffff))
  else String.mk result

end IPv6_Address

/-- C7 (failing input): the IPv6 parser accepts "1:2:3", a text with no fill
point and only three groups, and the accepted address stores only three
segments instead of eight; a complete text such as "1:2:3:4:5:6:7:8" shows
the intended behavior. -/
theorem ipv6_parse_accepts_short :
    IPv6_Address.parse "1:2:3" = some (.v6 [1, 2, 3] false) ∧
    ([1, 2, 3] : List Nat).length ≠ 8 ∧
    IPv6_Address.parse "1:2:3:4:5:6:7:8" =
      some (.v6 [1, 2, 3, 4, 5, 6, 7, 8] false) ∧
    IPv6_Address.parse "::1" = some (.v6 [0, 0, 0, 0, 0, 0, 0, 1] false) := by
  exact ⟨by decide, by decide, by decide, by decide⟩

/-- C8 (failing input): parsing the dual text ::ffff:1.2.3.4 and rendering
it exploded (compressed = False) under ValueDependent mode emits SEVEN hex
groups before the IPv4 tail — segment 6 (0102) appears both in the hex
portion and inside the dotted-decimal suffix — because __getFull slices
`segments[: end + 1]`; the claim says only the first six segments form the
hex portion.  Compressed dual rendering (which slices `[:end]`) behaves as
claimed. -/
theorem ipv6_dual_exploded_seven_groups :
    IPv6_Address.parse "::ffff:1.2.3.4" =
      some (.v6 [0, 0, 0, 0, 0, 0xffff, 0x0102, 0x0304] true) ∧
    IPv6_Address.toString [0, 0, 0, 0, 0, 0xffff, 0x0102, 0x0304] true false false
        DualOutputMode.valueDependent =
      "0000:0000:0000:0000:0000:ffff:0102:1.2.3.4" ∧
    IPv6_Address.toString [0, 0, 0, 0, 0, 0xffff, 0x0102, 0x0304] true false false
        DualOutputMode.valueDependent ≠
      "0000:0000:0000:0000:0000:ffff:1.2.3.4" ∧
    IPv6_Address.toString [0, 0, 0, 0, 0, 0xffff, 0x0102, 0x0304] true true false
        DualOutputMode.valueDependent = "::ffff:1.2.3.4" ∧
    IPv6_Address.toString [0, 0, 0, 0, 0, 0xffff, 0x0102, 0x0304] true true false
        DualOutputMode.forceNormal = "::ffff:102:304" ∧
    IPv6_Address.toString [0, 0, 0, 0, 0, 0, 0, 1] false true false
        DualOutputMode.forceDual = "::0.0.0.1" := by
  exact ⟨by decide, by decide, by decide, by decide, by decide, by decide⟩

/-- A run of `l` consecutive zero-valued segments starting at index `j`. -/
def ZeroRunAt (s : List Nat) (j l : Nat) : Prop :=
  0 < l ∧ j + l ≤ s.length ∧ ∀ k, k < l → s[j + k]? = some 0

/-- What findLongestZeroSegmentString's answer means: none = no zero run at
all (and length 0); some i with length l = a zero run at i of length l, at
least as long as every zero run, and leftmost among runs of that length. -/
def FlzAnswer (s : List Nat) : Option Nat × Nat → Prop
  | (none, l) => l = 0 ∧ ∀ j m, ¬ ZeroRunAt s j m
  | (some i, l) => ZeroRunAt s i l ∧
      ∀ j m, ZeroRunAt s j m → m ≤ l ∧ (m = l → i ≤ j)

/-- Scan-state invariant for the run in progress: the last `curZ` elements
of the processed prefix `s` are zero, `curI` points at its start (none when
it is empty), and the element just before it, when there is one, is
nonzero. -/
def TrailInv (s : List Nat) (curZ : Nat) (curI : Option Nat) : Prop :=
  curZ ≤ s.length ∧
  (∀ k, k < curZ → s[s.length - curZ + k]? = some 0) ∧
  curI = (if curZ = 0 then none else some (s.length - curZ)) ∧
  (curZ < s.length → ¬ s[s.length - curZ - 1]? = some 0)

/-- Scan-state invariant for the recorded maximum: among the zero runs of
`s` ending at or before `bound`, (maxI, maxZ) is the leftmost longest
(none and 0 when there is no such run). -/
def MaxInv (s : List Nat) (bound : Nat) : Option Nat → Nat → Prop
  | none, maxZ => maxZ = 0 ∧ ∀ j m, ZeroRunAt s j m → ¬ (j + m ≤ bound)
  | some i, maxZ => ZeroRunAt s i maxZ ∧ i + maxZ ≤ bound ∧
      ∀ j m, ZeroRunAt s j m → j + m ≤ bound → m ≤ maxZ ∧ (m = maxZ → i ≤ j)

theorem zeroRunAt_append {s : List Nat} {x j m : Nat}
    (h : ZeroRunAt s j m) : ZeroRunAt (s ++ [x]) j m := by
  obtain ⟨h1, h2, h3⟩ := h
  refine ⟨h1, by simp only [List.length_append, List.length_singleton]; omega, ?_⟩
  intro k hk
  rw [List.getElem?_append_left (by omega)]
  exact h3 k hk

theorem zeroRunAt_of_append {s : List Nat} {x j m : Nat}
    (h : ZeroRunAt (s ++ [x]) j m) (hle : j + m ≤ s.length) :
    ZeroRunAt s j m := by
  obtain ⟨h1, h2, h3⟩ := h
  refine ⟨h1, hle, ?_⟩
  intro k hk
  have := h3 k hk
  rwa [List.getElem?_append_left (by omega)] at this

theorem zeroRunAt_append_bound {s : List Nat} {x j m : Nat} (hx : x ≠ 0)
    (h : ZeroRunAt (s ++ [x]) j m) : j + m ≤ s.length := by
  by_contra hc
  obtain ⟨h1, h2, h3⟩ := h
  rw [List.length_append, List.length_singleton] at h2
  have hidx := h3 (s.length - j) (by omega)
  rw [show j + (s.length - j) = s.length from by omega,
    List.getElem?_concat_length] at hidx
  injection hidx with hv
  exact hx hv

theorem run_below_or_trailing {s : List Nat} {curZ : Nat} {curI : Option Nat}
    {j m : Nat} (ht : TrailInv s curZ curI) (hr : ZeroRunAt s j m) :
    j + m ≤ s.length - curZ ∨ s.length - curZ ≤ j := by
  by_contra hc
  push_neg at hc
  obtain ⟨h1, h2⟩ := hc
  have hcz : curZ < s.length := by omega
  have hidx := hr.2.2 (s.length - curZ - 1 - j) (by omega)
  rw [show j + (s.length - curZ - 1 - j) = s.length - curZ - 1 from by omega] at hidx
  exact (ht.2.2.2 hcz) hidx

theorem trailing_run {s : List Nat} {curZ : Nat} {curI : Option Nat}
    (ht : TrailInv s curZ curI) (h0 : 0 < curZ) :
    ZeroRunAt s (s.length - curZ) curZ := by
  refine ⟨h0, by have := ht.1; omega, ht.2.1⟩

theorem trailing_zone_bound {s : List Nat} {curZ : Nat} {curI : Option Nat}
    {j m : Nat} (ht : TrailInv s curZ curI) (hr : ZeroRunAt s j m)
    (hj : s.length - curZ ≤ j) :
    m ≤ curZ ∧ (m = curZ → j = s.length - curZ) := by
  have h1 := hr.2.1
  have h2 := ht.1
  have h3 := hr.1
  constructor
  · omega
  · intro hme; omega

theorem trailInv_nil : TrailInv [] 0 none := by
  refine ⟨Nat.le_refl 0, ?_, rfl, ?_⟩
  · intro k hk; omega
  · intro h; exact absurd h (by decide)

theorem maxInv_nil : MaxInv [] 0 none 0 := by
  refine ⟨rfl, ?_⟩
  intro j m hr
  have h1 := hr.1
  have h2 := hr.2.1
  have h3 : ([] : List Nat).length = 0 := rfl
  omega

theorem trailInv_append_zero {s : List Nat} {curZ : Nat} {curI : Option Nat}
    (ht : TrailInv s curZ curI) :
    TrailInv (s ++ [0]) (curZ + 1)
      (if curI = none then some s.length else curI) := by
  obtain ⟨h1, h2, h3, h4⟩ := ht
  refine ⟨by simp only [List.length_append, List.length_singleton]; omega,
    ?_, ?_, ?_⟩
  · intro k hk
    rw [List.length_append, List.length_singleton]
    by_cases hke : k = curZ
    · rw [hke, show s.length + 1 - (curZ + 1) + curZ = s.length from by omega]
      exact List.getElem?_concat_length s 0
    · rw [show s.length + 1 - (curZ + 1) + k = s.length - curZ + k from by omega,
        List.getElem?_append_left (by omega)]
      exact h2 k (by omega)
  · rw [h3]
    by_cases hz : curZ = 0
    · subst hz
      rw [if_pos rfl, if_pos rfl, if_neg (by omega), List.length_append,
        List.length_singleton]
      congr 1
    · rw [if_neg hz, if_neg (by simp), if_neg (by omega)]
      rw [List.length_append, List.length_singleton,
        show s.length + 1 - (curZ + 1) = s.length - curZ from by omega]
  · intro hlt
    rw [List.length_append, List.length_singleton] at hlt ⊢
    have hlt' : curZ < s.length := by omega
    rw [show s.length + 1 - (curZ + 1) - 1 = s.length - curZ - 1 from by omega,
      List.getElem?_append_left (by omega)]
    exact h4 hlt'

theorem trailInv_append_nonzero {s : List Nat} {x : Nat} (hx : x ≠ 0) :
    TrailInv (s ++ [x]) 0 none := by
  refine ⟨Nat.zero_le _, ?_, rfl, ?_⟩
  · intro k hk; omega
  · intro hlt
    rw [show (s ++ [x]).length - 0 - 1 = s.length from by
      simp only [List.length_append, List.length_singleton]; omega,
      List.getElem?_concat_length]
    intro hc
    injection hc with hv
    exact hx hv

theorem maxInv_bound_le {s : List Nat} {bound : Nat} (x : Nat)
    (hble : bound ≤ s.length) {mi : Option Nat} {mz : Nat}
    (hmax : MaxInv s bound mi mz) : MaxInv (s ++ [x]) bound mi mz := by
  cases mi with
  | none =>
    obtain ⟨hz, hno⟩ := hmax
    refine ⟨hz, ?_⟩
    intro j m hr hb
    exact hno j m (zeroRunAt_of_append hr (by omega)) hb
  | some i0 =>
    obtain ⟨hrun, hbnd, hmax'⟩ := hmax
    refine ⟨zeroRunAt_append hrun, hbnd, ?_⟩
    intro j m hr hb
    exact hmax' j m (zeroRunAt_of_append hr (by omega)) hb

theorem maxInv_promote {s : List Nat} {x curZ maxZ : Nat}
    {curI maxI : Option Nat}
    (hx : x ≠ 0) (ht : TrailInv s curZ curI) (hc0 : 0 < curZ)
    (hm : MaxInv s (s.length - curZ) maxI maxZ) (hcm : maxZ < curZ) :
    MaxInv (s ++ [x]) (s ++ [x]).length curI curZ := by
  have hcurI : curI = some (s.length - curZ) := by
    rw [ht.2.2.1, if_neg (by omega)]
  rw [hcurI]
  refine ⟨zeroRunAt_append (trailing_run ht hc0), ?_, ?_⟩
  · have := ht.1
    simp only [List.length_append, List.length_singleton]
    omega
  · intro j m hr hb
    have hrs : j + m ≤ s.length := zeroRunAt_append_bound hx hr
    have hr' : ZeroRunAt s j m := zeroRunAt_of_append hr hrs
    rcases run_below_or_trailing ht hr' with hbl | hj
    · cases hmi : maxI with
      | none =>
        rw [hmi] at hm
        exact absurd hbl (hm.2 j m hr')
      | some i0 =>
        rw [hmi] at hm
        have := hm.2.2 j m hr' hbl
        exact ⟨by omega, fun hme => by omega⟩
    · have h2 := trailing_zone_bound ht hr' hj
      exact ⟨h2.1, fun _ => hj⟩

theorem maxInv_keep {s : List Nat} {x curZ maxZ : Nat} {curI maxI : Option Nat}
    (hx : x ≠ 0) (ht : TrailInv s curZ curI)
    (hm : MaxInv s (s.length - curZ) maxI maxZ) (hcm : curZ ≤ maxZ)
    (hc0 : 0 < curZ) :
    MaxInv (s ++ [x]) (s ++ [x]).length maxI maxZ := by
  cases hmi : maxI with
  | none =>
    rw [hmi] at hm
    obtain ⟨hz, _⟩ := hm
    omega
  | some i0 =>
    rw [hmi] at hm
    obtain ⟨hrun, hbnd, hmax⟩ := hm
    refine ⟨zeroRunAt_append hrun, ?_, ?_⟩
    · have := hrun.2.1
      simp only [List.length_append, List.length_singleton]
      omega
    · intro j m hr hb
      have hrs := zeroRunAt_append_bound hx hr
      have hr' := zeroRunAt_of_append hr hrs
      rcases run_below_or_trailing ht hr' with hbl | hj
      · exact hmax j m hr' hbl
      · have h2 := trailing_zone_bound ht hr' hj
        refine ⟨by omega, fun hme => by omega⟩

theorem maxInv_keep0 {s : List Nat} {x maxZ : Nat} {maxI : Option Nat}
    (hx : x ≠ 0) (hm : MaxInv s s.length maxI maxZ) :
    MaxInv (s ++ [x]) (s ++ [x]).length maxI maxZ := by
  cases hmi : maxI with
  | none =>
    obtain ⟨hz, hno⟩ := (by rw [hmi] at hm; exact hm :
      maxZ = 0 ∧ ∀ j m, ZeroRunAt s j m → ¬ (j + m ≤ s.length))
    refine ⟨hz, ?_⟩
    intro j m hr hb
    have hrs := zeroRunAt_append_bound hx hr
    exact hno j m (zeroRunAt_of_append hr hrs) hrs
  | some i0 =>
    rw [hmi] at hm
    obtain ⟨hrun, hbnd, hmax⟩ := hm
    refine ⟨zeroRunAt_append hrun, ?_, ?_⟩
    · simp only [List.length_append, List.length_singleton]
      omega
    · intro j m hr hb
      have hrs := zeroRunAt_append_bound hx hr
      exact hmax j m (zeroRunAt_of_append hr hrs) hrs

/-- The scanning loop, run from a state satisfying the invariants over the
processed prefix, answers the leftmost-longest-zero-run question for the
whole list. -/
theorem flzGo_answer :
    ∀ (rest done : List Nat) (maxZ : Nat) (maxI : Option Nat)
      (curZ : Nat) (curI : Option Nat),
      TrailInv done curZ curI →
      MaxInv done (done.length - curZ) maxI maxZ →
      FlzAnswer (done ++ rest)
        (IPv6_Address.flzGo rest done.length maxZ maxI curZ curI) := by
  intro rest
  induction rest with
  | nil =>
    intro done maxZ maxI curZ curI ht hm
    rw [List.append_nil]
    unfold IPv6_Address.flzGo
    by_cases hc0 : curZ > 0
    · rw [if_pos hc0]
      by_cases hcm : curZ > maxZ
      · rw [if_pos hcm]
        have hcurI : curI = some (done.length - curZ) := by
          rw [ht.2.2.1, if_neg (by omega)]
        rw [hcurI]
        refine ⟨trailing_run ht hc0, ?_⟩
        intro j m hr
        rcases run_below_or_trailing ht hr with hb | hj
        · cases hmi : maxI with
          | none =>
            rw [hmi] at hm
            exact absurd hb (hm.2 j m hr)
          | some i0 =>
            rw [hmi] at hm
            have := hm.2.2 j m hr hb
            exact ⟨by omega, fun hme => by omega⟩
        · have h2 := trailing_zone_bound ht hr hj
          exact ⟨h2.1, fun _ => hj⟩
      · rw [if_neg hcm]
        cases hmi : maxI with
        | none =>
          rw [hmi] at hm
          obtain ⟨hmz, _⟩ := hm
          omega
        | some i0 =>
          rw [hmi] at hm
          obtain ⟨hrun0, hbnd0, hmax0⟩ := hm
          refine ⟨hrun0, ?_⟩
          intro j m hr
          rcases run_below_or_trailing ht hr with hb | hj
          · exact hmax0 j m hr hb
          · have h2 := trailing_zone_bound ht hr hj
            refine ⟨by omega, fun hme => by omega⟩
    · rw [if_neg hc0]
      have hcz : curZ = 0 := by omega
      subst hcz
      cases hmi : maxI with
      | none =>
        rw [hmi] at hm
        obtain ⟨hmz, hno⟩ := hm
        subst hmz
        refine ⟨rfl, ?_⟩
        intro j m hr
        exact hno j m hr (by have := hr.2.1; omega)
      | some i0 =>
        rw [hmi] at hm
        obtain ⟨hrun0, hbnd0, hmax0⟩ := hm
        refine ⟨hrun0, ?_⟩
        intro j m hr
        exact hmax0 j m hr (by have := hr.2.1; omega)
  | cons x rest ih =>
    intro done maxZ maxI curZ curI ht hm
    have happ : done ++ x :: rest = (done ++ [x]) ++ rest := by simp
    rw [happ]
    unfold IPv6_Address.flzGo
    have hlen : done.length + 1 = (done ++ [x]).length := by simp
    by_cases hx : x = 0
    · subst hx
      rw [if_pos rfl]
      have ht' := trailInv_append_zero ht
      have hb : (done ++ [0]).length - (curZ + 1) = done.length - curZ := by
        simp only [List.length_append, List.length_singleton]
        omega
      have hm' : MaxInv (done ++ [0]) ((done ++ [0]).length - (curZ + 1)) maxI maxZ := by
        rw [hb]
        exact maxInv_bound_le 0 (by have := ht.1; omega) hm
      have := ih (done ++ [0]) maxZ maxI (curZ + 1)
        (if curI = none then some done.length else curI) ht' hm'
      rw [hlen]
      exact this
    · rw [if_neg hx]
      by_cases hc0 : curZ > 0
      · rw [if_pos hc0]
        by_cases hcm : curZ > maxZ
        · rw [if_pos hcm]
          have ht' := trailInv_append_nonzero (s := done) hx
          have hb : (done ++ [x]).length - 0 = (done ++ [x]).length := by omega
          have hm' : MaxInv (done ++ [x]) ((done ++ [x]).length - 0) curI curZ := by
            rw [hb]
            exact maxInv_promote hx ht hc0 hm (by omega)
          have := ih (done ++ [x]) curZ curI 0 none ht' hm'
          rw [hlen]
          exact this
        · rw [if_neg hcm]
          have ht' := trailInv_append_nonzero (s := done) hx
          have hb : (done ++ [x]).length - 0 = (done ++ [x]).length := by omega
          have hm' : MaxInv (done ++ [x]) ((done ++ [x]).length - 0) maxI maxZ := by
            rw [hb]
            exact maxInv_keep hx ht hm (by omega) hc0
          have := ih (done ++ [x]) maxZ maxI 0 none ht' hm'
          rw [hlen]
          exact this
      · rw [if_neg hc0]
        have hcz : curZ = 0 := by omega
        subst hcz
        have hcurI : curI = none := by rw [ht.2.2.1, if_pos rfl]
        subst hcurI
        have ht' := trailInv_append_nonzero (s := done) hx
        have hb : (done ++ [x]).length - 0 = (done ++ [x]).length := by omega
        have hb2 : done.length = done.length - 0 := by omega
        have hm' : MaxInv (done ++ [x]) ((done ++ [x]).length - 0) maxI maxZ := by
          rw [hb]
          apply maxInv_keep0 hx
          rw [hb2]
          exact hm
        have := ih (done ++ [x]) maxZ maxI 0 none ht' hm'
        rw [hlen]
        exact this

/-- C9: findLongestZeroSegmentString returns the leftmost longest zero run
(none when there is no zero), the compressed renderer replaces exactly that
run with "::" only when its length is at least 2 and otherwise emits the
plain colon-joined hex segments, and in particular 1:0:0:2:0:0:3:4
compresses to 1::2:0:0:3:4 (leftmost-longest tie-break) while an address
with no zero run of length at least 2 is rendered without "::". -/
theorem compression_leftmost_longest :
    (∀ s i l, IPv6_Address.findLongestZeroSegmentString s = (some i, l) →
      ZeroRunAt s i l ∧ ∀ j m, ZeroRunAt s j m → m ≤ l ∧ (m = l → i ≤ j)) ∧
    (∀ s l, IPv6_Address.findLongestZeroSegmentString s = (none, l) →
      l = 0 ∧ ∀ j m, ¬ ZeroRunAt s j m) ∧
    (∀ (segments : List Nat) (dual : Bool) (oi : Option Nat) (l : Nat),
      IPv6_Address.findLongestZeroSegmentString
          (segments.take (if ¬ dual then 8 else 6)) = (oi, l) →
      ((oi = none ∨ l < 2) →
        IPv6_Address.getCompressed segments dual =
          joinChar ':' (IPv6_Address.toHexChars
            (segments.take (if ¬ dual then 8 else 6)))) ∧
      (∀ i, oi = some i → 2 ≤ l →
        IPv6_Address.getCompressed segments dual =
          joinChar ':' (IPv6_Address.toHexChars
            ((segments.take (if ¬ dual then 8 else 6)).take i)) ++
          ':' :: ':' ::
          joinChar ':' (IPv6_Address.toHexChars
            ((segments.take (if ¬ dual then 8 else 6)).drop (i + l))))) ∧
    IPv6_Address.toString [1, 0, 0, 2, 0, 0, 3, 4] false true false
        DualOutputMode.valueDependent = "1::2:0:0:3:4" ∧
    IPv6_Address.toString [1, 0, 2, 0, 3, 0, 4, 0] false true false
        DualOutputMode.valueDependent = "1:0:2:0:3:0:4:0" := by
  have hans : ∀ s : List Nat,
      FlzAnswer s (IPv6_Address.findLongestZeroSegmentString s) := by
    intro s
    have := flzGo_answer s [] 0 none 0 none trailInv_nil maxInv_nil
    simpa [IPv6_Address.findLongestZeroSegmentString] using this
  refine ⟨?_, ?_, ?_, by decide, by decide⟩
  · intro s i l h
    have := hans s
    rw [h] at this
    exact this
  · intro s l h
    have := hans s
    rw [h] at this
    exact this
  · intro segments dual oi l h
    constructor
    · intro hno
      unfold IPv6_Address.getCompressed
      dsimp only
      rw [h]
      rcases hno with hn | hl
      · subst hn; rfl
      · cases oi with
        | none => rfl
        | some i =>
          dsimp only
          rw [if_pos hl]
    · intro i hoi hl2
      subst hoi
      unfold IPv6_Address.getCompressed
      dsimp only
      rw [h]
      dsimp only
      rw [if_neg (by omega)]
      by_cases hleft : (joinChar ':' (IPv6_Address.toHexChars
          ((segments.take (if ¬ dual then 8 else 6)).take i))).length > 0
      · by_cases hright : (joinChar ':' (IPv6_Address.toHexChars
            ((segments.take (if ¬ dual then 8 else 6)).drop (i + l)))).length > 0
        · rw [if_pos ⟨hleft, hright⟩]
        · rw [if_neg (by intro hc; exact hright hc.2)]
          rw [if_neg (by omega)]
          have hre : joinChar ':' (IPv6_Address.toHexChars
              ((segments.take (if ¬ dual then 8 else 6)).drop (i + l))) = [] :=
            List.length_eq_zero.mp (by omega)
          rw [hre]
      · rw [if_neg (by intro hc; exact hleft hc.1)]
        rw [if_pos (by omega)]
        have hle : joinChar ':' (IPv6_Address.toHexChars
            ((segments.take (if ¬ dual then 8 else 6)).take i)) = [] :=
          List.length_eq_zero.mp (by omega)
        rw [hle, List.nil_append]
